import Mathlib

/-!
Shallow embedding of the transfer-record resolution pipeline of
`src/erc20.ts` (and the chain-key resolution of `src/constants.ts`)
from the crypto-odoo-sync repository, together with theorems settling
the frozen claims about it.

Modelling conventions:
* Machine `bigint` / `number` integers become `Nat` / `Int`; the raw
  token amount is a `Nat` and the scaled decimal amount is a rational
  (`ℚ`), modelling viem's exact `formatUnits` decimal string followed by
  JS `Number` conversion, with the IEEE-754 rounding of that last step
  abstracted away (the spec itself flags the float use as a risk).
* The remote chain is a pure oracle (`Ledger`); every RPC the TypeScript
  code performs becomes a step in the `M` monad below, which counts RPC
  calls so that "no network call is made" is expressible.
* Loops (`while` in the binary search and the chunked log scan) are
  translated fuel-indexed, with the fuel instantiated at call sites to a
  provably sufficient bound, so that all definitions evaluate by `decide`.
* JS `Map` insertion-order semantics are modelled by an association list
  with in-place update (`upsert`), and `Array.prototype.sort` (a stable
  sort by a comparator) by `List.insertionSort`, which is stable for the
  total preorder induced by the comparator.
-/

/-- Error type of the pipeline, mirroring the `ChainError` tagged error
of `src/erc20.ts` (a single tag with a message). -/
structure ChainError where
  message : String
deriving DecidableEq, Repr

instance {ε α : Type} [DecidableEq ε] [DecidableEq α] : DecidableEq (Except ε α) := fun x y =>
  match x, y with
  | Except.ok a, Except.ok b => if h : a = b then isTrue (by rw [h]) else isFalse (by simp [h])
  | Except.error e, Except.error f => if h : e = f then isTrue (by rw [h]) else isFalse (by simp [h])
  | Except.ok _, Except.error _ => isFalse (by simp)
  | Except.error _, Except.ok _ => isFalse (by simp)

/-- Model of JS `String.prototype.trim`: strip whitespace from both
ends (defined on the character list so that it evaluates inside the
kernel, unlike the byte-indexed core `String.trim`). -/
def strTrim (s : String) : String :=
  ⟨((s.data.dropWhile Char.isWhitespace).reverse.dropWhile Char.isWhitespace).reverse⟩

/-- Model of JS `String.prototype.toLowerCase` on ASCII addresses
(defined on the character list so that it evaluates inside the
kernel). -/
def strToLower (s : String) : String := ⟨s.data.map Char.toLower⟩

/-- One raw `Transfer` log as the pipeline receives it from `getLogs`.
Fields that the TypeScript code checks for `null`/`undefined` before use
(`transactionHash`, `logIndex`, `args.from`, `args.to`, `args.value`)
are `Option`-valued. -/
structure TransferLog where
  transactionHash : Option String
  logIndex : Option Nat
  blockNumber : Nat
  argsFrom : Option String
  argsTo : Option String
  argsValue : Option Nat
deriving DecidableEq, Repr

/-- The canonical output record, mirroring `TransferRecord` of
`src/erc20.ts` (the `from`/`to` fields are renamed `fromAddr`/`toAddr`
because `from` is a Lean keyword). -/
structure TransferRecord where
  amount : ℚ
  amountRaw : String
  blockNumber : Nat
  date : String
  fromAddr : String
  logIndex : Nat
  network : String
  timestamp : Int
  toAddr : String
  tokenAddress : String
  tokenSymbol : String
  txHash : String
  uniqueId : String
deriving DecidableEq, Repr

/-! ## Calendar arithmetic

`parseUtcDate` in the source builds an ISO string `YYYY-MM-DDT…Z` and
feeds it to JS `Date.parse`.  We model the ECMA-262 date-time grammar on
the canonical `YYYY-MM-DD` calendar-date shape (4-digit year, 2-digit
month and day, validated against the Gregorian calendar); any other
string yields `none`, as `Date.parse` yields `NaN` there. -/

/-- Gregorian leap-year rule. -/
def isLeapYear (y : Nat) : Bool := (y % 4 == 0 && y % 100 != 0) || y % 400 == 0

/-- Number of days in month `m` of year `y`. -/
def daysInMonth (y m : Nat) : Nat :=
  if m == 2 then (if isLeapYear y then 29 else 28)
  else if m == 4 || m == 6 || m == 9 || m == 11 then 30 else 31

/-- Julian day number of a proleptic-Gregorian calendar date. -/
def julianDayNumber (y m d : Nat) : Int :=
  let a := (14 - m) / 12
  let y' := y + 4800 - a
  let m' := m + 12 * a - 3
  ((d + (153 * m' + 2) / 5 + 365 * y' + y' / 4 + y' / 400 : Nat) : Int)
    - ((y' / 100 : Nat) : Int) - 32045

/-- Days since the Unix epoch (1970-01-01) of a calendar date. -/
def epochDays (y m d : Nat) : Int := julianDayNumber y m d - 2440588

/-- Digit value of a character. -/
def digitVal (c : Char) : Nat := c.toNat - 48

/-- Parse a `YYYY-MM-DD` string into a validated calendar date. -/
def parseCivilDate (s : String) : Option (Nat × Nat × Nat) :=
  match s.data with
  | [y1, y2, y3, y4, s1, m1, m2, s2, d1, d2] =>
    if y1.isDigit && y2.isDigit && y3.isDigit && y4.isDigit &&
        s1 == '-' && m1.isDigit && m2.isDigit &&
        s2 == '-' && d1.isDigit && d2.isDigit then
      let y := ((digitVal y1 * 10 + digitVal y2) * 10 + digitVal y3) * 10 + digitVal y4
      let m := digitVal m1 * 10 + digitVal m2
      let d := digitVal d1 * 10 + digitVal d2
      if 1 ≤ m && m ≤ 12 && 1 ≤ d && d ≤ daysInMonth y m then some (y, m, d)
      else none
    else none
  | _ => none

/-- Model of `parseUtcDate` of `src/erc20.ts`: trim the input, parse it
as a UTC calendar date, and return the Unix timestamp in whole seconds
of the first instant of that day (or of `23:59:59.999`, floored to
`23:59:59`, when `endOfDay` is set); `none` models the thrown
`ChainError` on `NaN`. -/
def parseUtcDate (date : String) (endOfDay : Bool) : Option Int :=
  (parseCivilDate (strTrim date)).map fun ymd =>
    epochDays ymd.1 ymd.2.1 ymd.2.2 * 86400 + (if endOfDay then 86399 else 0)

/-- Left-pad a numeral to two digits. -/
def pad2 (n : Nat) : String := if n < 10 then "0" ++ toString n else toString n

/-- Left-pad a numeral to four digits. -/
def pad4 (n : Nat) : String :=
  if n < 10 then "000" ++ toString n
  else if n < 100 then "00" ++ toString n
  else if n < 1000 then "0" ++ toString n
  else toString n

/-- Inverse of `epochDays`: the calendar date of a day count since the
Unix epoch (proleptic Gregorian). -/
def civilFromDays (z0 : Int) : Nat × Nat × Nat :=
  let z := z0 + 719468
  let era := Int.ediv z 146097
  let doe := (z - era * 146097).toNat
  let yoe := (doe - doe / 1460 + doe / 36524 - doe / 146096) / 365
  let doy := doe - (365 * yoe + yoe / 4 - yoe / 100)
  let mp := (5 * doy + 2) / 153
  let d := doy - (153 * mp + 2) / 5 + 1
  let m := if mp < 10 then mp + 3 else mp - 9
  let y := era * 400 + (yoe : Int) + (if m ≤ 2 then 1 else 0)
  (y.toNat, m, d)

/-- Model of `new Date(ts * 1000).toISOString().slice(0, 10)`. -/
def tsToDateString (ts : Int) : String :=
  let ymd := civilFromDays (Int.ediv ts 86400)
  pad4 ymd.1 ++ "-" ++ pad2 ymd.2.1 ++ "-" ++ pad2 ymd.2.2

/-! ## The RPC-counting monad

Every remote call of the TypeScript pipeline is a step in `M`, a state
monad over a counter of issued RPC requests that can fail with a
`ChainError`.  This makes "fails before any network call" a statement
about the counter. -/

/-- Computation that may perform RPC calls (counted) and fail with a
`ChainError`. -/
structure M (α : Type) where
  run : Nat → Except ChainError α × Nat

/-- Lift a value into `M` without touching the RPC counter. -/
def M.pure {α : Type} (a : α) : M α := ⟨fun n => (Except.ok a, n)⟩

/-- Sequence two `M` computations, threading the RPC counter and
propagating errors. -/
def M.bind {α β : Type} (x : M α) (f : α → M β) : M β :=
  ⟨fun n =>
    match x.run n with
    | (Except.ok a, n') => (f a).run n'
    | (Except.error e, n') => (Except.error e, n')⟩

instance : Monad M where
  pure := M.pure
  bind := M.bind

/-- Fail with a `ChainError` (no RPC call). -/
def M.fail {α : Type} (e : ChainError) : M α := ⟨fun n => (Except.error e, n)⟩

/-- Perform one RPC call returning `a`: increments the counter. -/
def M.rpc {α : Type} (a : α) : M α := ⟨fun n => (Except.ok a, n + 1)⟩

/-! ## Chain-key resolution (`src/constants.ts`) -/

/-- The static alias table `CHAIN_ALIASES` of `src/constants.ts`. -/
def CHAIN_ALIASES (s : String) : Option String :=
  if s = "ethereum" then some "mainnet" else none

/-- Model of `normalizeNetworkKey`: apply the alias table, falling back
to the input. -/
def normalizeNetworkKey (network : String) : String :=
  (CHAIN_ALIASES network).getD network

/-- The environment of available chains: the key set of the
`CHAINS_BY_KEY` table built from the external `viem/chains` package
(out of scope for the core, abstracted to a membership predicate). -/
structure ChainsEnv where
  hasKey : String → Bool

/-- Model of `resolveChainOption` of `src/constants.ts`: trim the input,
apply the alias map, and look the normalized key up in the chain table.
The resolved chain's `key` field is the map key itself, so only the key
is returned. -/
def resolveChainOption (env : ChainsEnv) (network : String) : Option String :=
  let normalized := normalizeNetworkKey (strTrim network)
  if env.hasKey normalized then some normalized else none

/-- Which RPC provider is configured. -/
inductive RpcProvider
  | publicRpc
  | alchemy
deriving DecidableEq, Repr

/-- Model of `makeClient` of `src/erc20.ts`: resolve the chain key and
validate the provider configuration; synchronous, no RPC call.  Chains
in the table always carry a default RPC URL (the table is filtered by
`hasDefaultHttpRpc` at construction), so only the unsupported-network
and missing-Alchemy-key failures remain.  Returns the resolved
`networkKey`. -/
def makeClient (env : ChainsEnv) (network : String) (rpcProvider : RpcProvider)
    (alchemyApiKey : Option String) : M String :=
  match resolveChainOption env network with
  | none => M.fail ⟨"Unsupported network \"" ++ network ++ "\". Pick a chain from setup again."⟩
  | some key =>
    match rpcProvider with
    | RpcProvider.alchemy =>
      if (strTrim (alchemyApiKey.getD "")).length = 0 then
        M.fail ⟨"Alchemy is selected but no valid Alchemy API key is configured."⟩
      else M.pure key
    | RpcProvider.publicRpc => M.pure key

/-! ## The ledger oracle and the RPC operations -/

/-- A snapshot of the remote chain, as seen through the RPC interface
for one token: head block, block timestamps, the token's `Transfer`
logs in their canonical retrieval order, and the token metadata. -/
structure Ledger where
  latestNumber : Nat
  timestampOf : Nat → Int
  logs : List TransferLog
  decimals : Nat
  symbol : String

/-- Model of `fetchLatestBlock`: one `getBlock` RPC returning the head's
number and timestamp. -/
def fetchLatestBlock (L : Ledger) : M (Nat × Int) :=
  M.rpc (L.latestNumber, L.timestampOf L.latestNumber)

/-- Model of `fetchBlockTimestamp`: one `getBlock` RPC for a block
number. -/
def fetchBlockTimestamp (L : Ledger) (blockNumber : Nat) : M Int :=
  M.rpc (L.timestampOf blockNumber)

/-- Model of `fetchTokenMeta`: two `readContract` RPCs (`decimals`,
`symbol`). -/
def fetchTokenMeta (L : Ledger) : M (Nat × String) := do
  let d ← M.rpc L.decimals
  let s ← M.rpc L.symbol
  pure (d, s)

/-- The wallet side an event-log query filters on. -/
inductive Direction
  | incoming
  | outgoing
deriving DecidableEq, Repr

/-- Case-insensitive address equality (EVM addresses are hex strings
whose case only carries a checksum; topic filtering matches the raw
bytes). -/
def lowerEq (a b : String) : Bool := strToLower a == strToLower b

/-- Whether a log matches the directional filter for `wallet` (the
indexed `to` argument for incoming queries, `from` for outgoing). -/
def matchesDirection (dir : Direction) (wallet : String) (e : TransferLog) : Bool :=
  match dir with
  | Direction.incoming =>
    match e.argsTo with
    | some a => lowerEq a wallet
    | none => false
  | Direction.outgoing =>
    match e.argsFrom with
    | some a => lowerEq a wallet
    | none => false

/-- Model of `queryTransferLogs`: one `getLogs` RPC returning the
ledger's logs inside the block range that match the directional
filter. -/
def queryTransferLogs (L : Ledger) (fromBlock toBlock : Nat) (dir : Direction)
    (wallet : String) : M (List TransferLog) :=
  M.rpc (L.logs.filter fun e =>
    decide (fromBlock ≤ e.blockNumber ∧ e.blockNumber ≤ toBlock) &&
      matchesDirection dir wallet e)

/-- Chunk size of the direct log scan (`CHUNK_SIZE` in `src/erc20.ts`). -/
def CHUNK_SIZE : Nat := 10000

/-- Fuel-indexed translation of the chunk loop inside `fetchTransfers`:
while `current ≤ toBlock`, query one chunk `[current, end]` and advance
to `end + 1`.  The fuel is instantiated at the call site with a bound
that provably outlasts the loop. -/
def fetchTransfersGo (L : Ledger) (wallet : String) (dir : Direction) (toBlock : Nat) :
    Nat → Nat → M (List TransferLog)
  | 0, _ => pure []
  | Nat.succ fuel, current =>
    if current ≤ toBlock then do
      let endBlock := if current + CHUNK_SIZE > toBlock then toBlock else current + CHUNK_SIZE
      let chunk ← queryTransferLogs L current endBlock dir wallet
      let rest ← fetchTransfersGo L wallet dir toBlock fuel (endBlock + 1)
      pure (chunk ++ rest)
    else pure []

/-- Model of `fetchTransfers` of `src/erc20.ts`: an empty range returns
`[]` without issuing any request; otherwise the chunk loop accumulates
the per-chunk query results in order. -/
def fetchTransfers (L : Ledger) (wallet : String) (dir : Direction)
    (fromBlock toBlock : Nat) : M (List TransferLog) :=
  if fromBlock > toBlock then pure []
  else fetchTransfersGo L wallet dir toBlock (toBlock + 1 - fromBlock) fromBlock

/-- The JS-Map key `` `${entry.transactionHash}-${entry.logIndex}` ``
used for deduplication; JS stringifies a missing field as `"null"`. -/
def logKey (e : TransferLog) : String :=
  (match e.transactionHash with
    | some h => h
    | none => "null") ++ "-" ++
  (match e.logIndex with
    | some i => toString i
    | none => "null")

/-- Insert into an association list with JS-`Map.set` semantics: an
existing key keeps its position and gets the new value, a new key is
appended. -/
def upsert (k : String) (v : TransferLog) :
    List (String × TransferLog) → List (String × TransferLog)
  | [] => [(k, v)]
  | (k', v') :: rest => if k' = k then (k', v) :: rest else (k', v') :: upsert k v rest

/-- Model of the dedup `Map` in `fetchWalletTransfers`: fold the events
into a JS `Map` keyed by `logKey` and take its values in insertion
order. -/
def dedupByKey (l : List TransferLog) : List TransferLog :=
  (l.foldl (fun acc e => upsert (logKey e) e acc) []).map Prod.snd

/-- Model of `fetchWalletTransfers`: query the incoming and outgoing
directions and deduplicate their concatenation by `logKey`. -/
def fetchWalletTransfers (L : Ledger) (wallet : String) (fromBlock toBlock : Nat) :
    M (List TransferLog) := do
  let incoming ← fetchTransfers L wallet Direction.incoming fromBlock toBlock
  let outgoing ← fetchTransfers L wallet Direction.outgoing fromBlock toBlock
  pure (dedupByKey (incoming ++ outgoing))

/-- Model of `resolveBlockTimestamps`: one `getBlock` RPC per listed
block number, pairing each with its timestamp.  `Effect.forEach` with
bounded concurrency preserves input order in its result, so the result
is the same as this sequential translation. -/
def resolveBlockTimestamps (L : Ledger) : List Nat → M (List (Nat × Int))
  | [] => pure []
  | b :: rest => do
    let t ← fetchBlockTimestamp L b
    let more ← resolveBlockTimestamps L rest
    pure ((b, t) :: more)

/-- Fuel-indexed translation of the binary-search loop of
`findBlockAtOrAfter`: while `left < right`, probe the middle block's
timestamp and halve the interval. -/
def findBlockGo (L : Ledger) (target : Int) : Nat → Nat → Nat → M Nat
  | 0, left, _ => pure left
  | Nat.succ fuel, left, right =>
    if left < right then do
      let middle := (left + right) / 2
      let blockTimestamp ← fetchBlockTimestamp L middle
      if blockTimestamp < target then findBlockGo L target fuel (middle + 1) right
      else findBlockGo L target fuel left middle
    else pure left

/-- Model of `findBlockAtOrAfter` of `src/erc20.ts`: binary search on
`[0, latestBlock]` for the lowest block whose timestamp reaches
`target`.  The interval width shrinks every iteration, so `latestBlock`
units of fuel outlast the loop. -/
def findBlockAtOrAfter (L : Ledger) (target : Int) (latestBlock : Nat) : M Nat :=
  findBlockGo L target latestBlock 0 latestBlock

/-! ## Merge & normalize -/

/-- Exact value of viem's `formatUnits` (an exact decimal string): the
raw amount scaled by `10 ^ decimals`, before the JS `Number` conversion
rounds it to a binary64 double.  The records of the embedded pipeline
carry this pre-rounding value; the rounding the source performs at
`Number(formatUnits(...))` is modelled separately by `jsFormatUnits`
below and accounted for wherever a claim constrains amount values.
Stated via `mkRat` (which evaluates inside the kernel);
`formatUnitsQ_eq` identifies it with the division form. -/
def formatUnitsQ (value : Nat) (decimals : Nat) : ℚ :=
  mkRat value (10 ^ decimals)

/-- Fuel-indexed base-2 logarithm (floor), structural so that it
evaluates inside the kernel. -/
def log2F : Nat → Nat → Nat
  | 0, _ => 0
  | Nat.succ fuel, n => if 2 ≤ n then log2F fuel (n / 2) + 1 else 0

/-- Floor of the base-2 logarithm of a positive natural. -/
def natLog2 (n : Nat) : Nat := log2F n n

/-- Round `a / b` (with `b > 0`) to the nearest natural, ties to even —
the rounding mode of IEEE-754 binary64. -/
def roundHalfEvenNat (a b : Nat) : Nat :=
  let f := a / b
  let r := a % b
  if 2 * r < b then f
  else if b < 2 * r then f + 1
  else if f % 2 = 0 then f else f + 1

/-- The IEEE-754 binary64 double nearest to the nonnegative quotient
`v / den` (round to nearest, ties to even; gradual underflow at
`2 ^ -1074`), returned as the rational it denotes.  Faithful for
quotients below the binary64 overflow threshold, which covers every
token amount.  The significand quantum is `2 ^ (e - 52)` for a
normal-range exponent `e = ⌊log2 (v / den)⌋` and `2 ^ -1074` in the
subnormal range; the quotient is rounded to the nearest multiple of
that quantum. -/
def nearestDouble (v den : Nat) : ℚ :=
  if v = 0 then 0
  else if den = 0 then 0
  else
    let la := natLog2 v
    let lb := natLog2 den
    let cond := if lb ≤ la then den * 2 ^ (la - lb) ≤ v else den ≤ v * 2 ^ (lb - la)
    let e : Int := (la : Int) - (lb : Int) - (if cond then 0 else 1)
    let k : Int := max (e - 52) (-1074)
    if k ≤ 0 then
      mkRat (roundHalfEvenNat (v * 2 ^ (-k).toNat) den) (2 ^ (-k).toNat)
    else
      ((roundHalfEvenNat v (den * 2 ^ k.toNat) * 2 ^ k.toNat : Nat) : ℚ)

/-- Faithful model of `Number(formatUnits(value, decimals))` at
`erc20.ts:452`: the binary64 double nearest to
`value / 10 ^ decimals`. -/
def jsFormatUnits (value decimals : Nat) : ℚ :=
  nearestDouble value (10 ^ decimals)

/-- Model of the per-event body of the `.map` in `getTransferRecords`
(lines 438-470 of `src/erc20.ts`): drop the event if its block
timestamp is unresolved or any structural field is missing (JS `!from`
also rejects an empty string), otherwise build the canonical record,
signing the amount positive exactly when the wallet is the receiving
address (case-insensitively). -/
def mapEntry (networkKey : String) (decimals : Nat) (symbol : String)
    (walletAddress tokenAddress : String) (tsOf : Nat → Option Int)
    (e : TransferLog) : Option TransferRecord :=
  match tsOf e.blockNumber, e.logIndex, e.transactionHash with
  | some blockTimestamp, some logIndex, some txHash =>
    match e.argsFrom, e.argsTo, e.argsValue with
    | some fromAddr, some toAddr, some value =>
      if fromAddr = "" || toAddr = "" then none
      else
        let unsignedAmount := formatUnitsQ value decimals
        let signedAmount :=
          if strToLower toAddr = strToLower walletAddress then unsignedAmount else -unsignedAmount
        some
          { amount := signedAmount
            amountRaw := toString value
            blockNumber := e.blockNumber
            date := tsToDateString blockTimestamp
            fromAddr := fromAddr
            logIndex := logIndex
            network := networkKey
            timestamp := blockTimestamp
            toAddr := toAddr
            tokenAddress := tokenAddress
            tokenSymbol := symbol
            txHash := txHash
            uniqueId := networkKey ++ "-" ++ txHash ++ "-" ++ toString logIndex }
    | _, _, _ => none
  | _, _, _ => none

/-- The order the final `.sort` comparator of `getTransferRecords`
establishes: by timestamp, ties by log index (the comparator never
consults the block number). -/
def recLE (a b : TransferRecord) : Prop :=
  a.timestamp < b.timestamp ∨ (a.timestamp = b.timestamp ∧ a.logIndex ≤ b.logIndex)

instance : DecidableRel recLE := fun a b =>
  inferInstanceAs (Decidable (a.timestamp < b.timestamp ∨
    (a.timestamp = b.timestamp ∧ a.logIndex ≤ b.logIndex)))

instance : IsTrans TransferRecord recLE :=
  ⟨by intro a b c hab hbc; unfold recLE at hab hbc ⊢; omega⟩

instance : IsTotal TransferRecord recLE :=
  ⟨by intro a b; unfold recLE; omega⟩

/-- The strict part of the comparator order: used to show a sorted run
with pairwise-distinct `(timestamp, logIndex)` keys is unique. -/
def recLT (a b : TransferRecord) : Prop :=
  a.timestamp < b.timestamp ∨ (a.timestamp = b.timestamp ∧ a.logIndex < b.logIndex)

instance : IsAntisymm TransferRecord recLT :=
  ⟨by intro a b hab hba; exfalso; unfold recLT at hab hba; omega⟩

/-- Model of `Array.prototype.sort` with the source's comparator: a
stable sort for the total preorder `recLE`. -/
def sortRecords (l : List TransferRecord) : List TransferRecord :=
  List.insertionSort recLE l

/-- The pure tail of `getTransferRecords`: map every raw event to its
record (dropping malformed ones), then sort. -/
def mapAndSort (networkKey : String) (decimals : Nat) (symbol : String)
    (walletAddress tokenAddress : String) (tsOf : Nat → Option Int)
    (rawLogs : List TransferLog) : List TransferRecord :=
  sortRecords (rawLogs.filterMap (mapEntry networkKey decimals symbol walletAddress tokenAddress tsOf))

/-- Model of `[...new Set(xs)]`: deduplicate keeping first occurrences
in insertion order. -/
def dedupKeepFirst (l : List Nat) : List Nat :=
  l.foldl (fun acc b => if b ∈ acc then acc else acc ++ [b]) []

/-- Lookup in the `timestampByBlock` map built from the resolved
`(blockNumber, timestamp)` pairs. -/
def lookupTimestamp (timestamps : List (Nat × Int)) (b : Nat) : Option Int :=
  (timestamps.find? fun p => p.1 == b).map Prod.snd

/-- The caller-supplied parameters of `getTransferRecords`. -/
structure Params where
  network : String
  tokenAddress : String
  fromDate : String
  toDate : String
  walletAddress : String
  rpcProvider : RpcProvider
  alchemyApiKey : Option String

/-- Lift the `Option`-valued date parser into `M`, failing with the
source's validation `ChainError` (an `Effect.sync`, so no RPC call). -/
def parseUtcDateM (date : String) (endOfDay : Bool) : M Int :=
  match parseUtcDate date endOfDay with
  | some t => Pure.pure t
  | none => M.fail ⟨"Invalid date \"" ++ date ++ "\". Use YYYY-MM-DD format."⟩

/-- The block-range resolution step of `getTransferRecords` (lines
391-404 of `src/erc20.ts`, factored out under a name): fetch the head,
binary-search the `from` boundary, and either reuse the head as
`toBlock` (when the end-of-day instant is at or past the head's
timestamp) or search for the first block past end-of-day and step back
one.  `toBlock` is an `Int` because that step back can reach `-1`. -/
def resolveBlockRange (L : Ledger) (fromTimestamp toTimestamp : Int) :
    M (Nat × Int) := do
  let latestBlock ← fetchLatestBlock L
  let fromBlock ← findBlockAtOrAfter L fromTimestamp latestBlock.1
  let toBlock ←
    if toTimestamp ≥ latestBlock.2 then Pure.pure (latestBlock.1 : Int)
    else do
      let b ← findBlockAtOrAfter L (toTimestamp + 1) latestBlock.1
      pure ((b : Int) - 1)
  pure (fromBlock, toBlock)

/-- Model of `getTransferRecords` of `src/erc20.ts`: validate the
dates, resolve the chain, resolve the block range by binary search,
scan both directions, deduplicate, resolve timestamps, and map-and-sort
into the final record list. -/
def getTransferRecords (env : ChainsEnv) (L : Ledger) (p : Params) :
    M (List TransferRecord) := do
  let fromTimestamp ← parseUtcDateM p.fromDate false
  let toTimestamp ← parseUtcDateM p.toDate true
  if fromTimestamp > toTimestamp then
    M.fail ⟨"`from` date must be earlier than or equal to `to` date."⟩
  else do
    let networkKey ← makeClient env p.network p.rpcProvider p.alchemyApiKey
    let blockRange ← resolveBlockRange L fromTimestamp toTimestamp
    let fromBlock := blockRange.1
    let toBlock := blockRange.2
    if (fromBlock : Int) > toBlock then pure []
    else do
      let tokenMeta ← fetchTokenMeta L
      let rawLogs ← fetchWalletTransfers L p.walletAddress fromBlock toBlock.toNat
      if rawLogs.length = 0 then pure []
      else do
        let uniqueBlocks := dedupKeepFirst (rawLogs.map TransferLog.blockNumber)
        let timestamps ← resolveBlockTimestamps L uniqueBlocks
        pure (mapAndSort networkKey tokenMeta.1 tokenMeta.2 p.walletAddress p.tokenAddress
          (lookupTimestamp timestamps) rawLogs)

/-- Monotonically non-decreasing block timestamps (the binary-search
invariant assumed of the remote ledger). -/
def MonotoneTs (L : Ledger) : Prop :=
  ∀ i j : Nat, i ≤ j → L.timestampOf i ≤ L.timestampOf j

/-- The merge stage in isolation (the body of `fetchWalletTransfers`
after both directional queries, composed with the map-and-sort tail of
`getTransferRecords`): deduplicate the union of the two directional
result lists, then normalize and sort. -/
def mergeNormalize (networkKey : String) (decimals : Nat) (symbol : String)
    (walletAddress tokenAddress : String) (tsOf : Nat → Option Int)
    (incoming outgoing : List TransferLog) : List TransferRecord :=
  mapAndSort networkKey decimals symbol walletAddress tokenAddress tsOf
    (dedupByKey (incoming ++ outgoing))

/-- The order claimed by the spec for the final record list: ascending
by timestamp, then block number, then log index. -/
def claimedOrder (a b : TransferRecord) : Prop :=
  a.timestamp < b.timestamp ∨ (a.timestamp = b.timestamp ∧
    (a.blockNumber < b.blockNumber ∨ (a.blockNumber = b.blockNumber ∧ a.logIndex ≤ b.logIndex)))

instance : DecidableRel claimedOrder := fun a b =>
  inferInstanceAs (Decidable (a.timestamp < b.timestamp ∨ (a.timestamp = b.timestamp ∧
    (a.blockNumber < b.blockNumber ∨ (a.blockNumber = b.blockNumber ∧ a.logIndex ≤ b.logIndex)))))

/-- Events are determined by their dedup key: two occurrences with the
same `(transactionHash, logIndex)` key are the same event.  Physically
guaranteed on a chain (the pair identifies one log); needed because the
dedup `Map` keeps the last value written for a key. -/
def KeyFunctional (l : List TransferLog) : Prop :=
  ∀ x, x ∈ l → ∀ y, y ∈ l → logKey x = logKey y → x = y

instance (l : List TransferLog) : Decidable (KeyFunctional l) :=
  inferInstanceAs (Decidable (∀ x, x ∈ l → ∀ y, y ∈ l → logKey x = logKey y → x = y))

/-- A raw event missing one of the structural fields the mapper
requires (transaction hash, log index, from, to, or raw value). -/
def MissingStructuralField (e : TransferLog) : Prop :=
  e.transactionHash = none ∨ e.logIndex = none ∨ e.argsFrom = none ∨
    e.argsTo = none ∨ e.argsValue = none

instance (e : TransferLog) : Decidable (MissingStructuralField e) :=
  inferInstanceAs (Decidable (e.transactionHash = none ∨ e.logIndex = none ∨
    e.argsFrom = none ∨ e.argsTo = none ∨ e.argsValue = none))

/-! ## Retry/timeout policy (`withRpcTimeoutAndRetry`)

The source wraps each RPC effect in `Effect.timeoutFail` with a
30-second deadline and `Effect.retry` with `Schedule.exponential("200
millis")` and `times: 2`.  Real time is modelled by an oracle giving
each attempt a duration and an outcome; the timeout converts an
overlong attempt into the timeout `ChainError`, and the retry loop
performs the scheduled sleeps, which we record as data. -/

/-- Per-attempt deadline: `RPC_REQUEST_TIMEOUT = "30 seconds"`. -/
def RPC_REQUEST_TIMEOUT_MS : Nat := 30000

/-- Base retry delay: `RPC_RETRY_DELAY = "200 millis"`. -/
def RPC_RETRY_DELAY_MS : Nat := 200

/-- Retry budget: `RPC_RETRY_TIMES = 2` retries after the first attempt. -/
def RPC_RETRY_TIMES : Nat := 2

/-- The oracle view of one attempt of the wrapped effect: how long it
ran and how it ended. -/
structure Attempt (α : Type) where
  durationMs : Nat
  outcome : Except ChainError α

/-- Model of `Effect.timeoutFail`: an attempt that outlives the
deadline becomes the timeout `ChainError` carrying the caller-supplied
message. -/
def attemptResult {α : Type} (timeoutMessage : String) (att : Nat → Attempt α)
    (k : Nat) : Except ChainError α :=
  if RPC_REQUEST_TIMEOUT_MS < (att k).durationMs then Except.error ⟨timeoutMessage⟩
  else (att k).outcome

/-- Model of `Effect.retry` with `Schedule.exponential`: run attempt
`k`; on failure with remaining budget, sleep the exponential delay
(recorded in the second component) and try again, surfacing the last
error when the budget is exhausted. -/
def retryLoop {α : Type} (timeoutMessage : String) (att : Nat → Attempt α) :
    Nat → Nat → Except ChainError α × List Nat
  | k, 0 => (attemptResult timeoutMessage att k, [])
  | k, Nat.succ budget =>
    match attemptResult timeoutMessage att k with
    | Except.ok a => (Except.ok a, [])
    | Except.error _ =>
      let r := retryLoop timeoutMessage att (k + 1) budget
      (r.1, RPC_RETRY_DELAY_MS * 2 ^ k :: r.2)

/-- Model of `withRpcTimeoutAndRetry` of `src/erc20.ts`: the retry loop
started with the full budget. -/
def withRpcTimeoutAndRetry {α : Type} (timeoutMessage : String) (att : Nat → Attempt α) :
    Except ChainError α × List Nat :=
  retryLoop timeoutMessage att 0 RPC_RETRY_TIMES

/-! ## Concrete scenarios used by witnesses and counterexamples -/

/-- A chain table containing only the key `"mainnet"`. -/
def scEnv : ChainsEnv := ⟨fun k => k == "mainnet"⟩

/-- A four-block ledger with strictly increasing timestamps around
2024-01-01 and one incoming transfer of 7 units in block 2. -/
def scLedger : Ledger :=
  { latestNumber := 3
    timestampOf := fun b => 1704067200 + b * 10
    logs := [⟨some "0xh", some 5, 2, some "0xA", some "0xW", some 7⟩]
    decimals := 0
    symbol := "TOK" }

/-- Query parameters: the alias `"ethereum"`, one calendar day. -/
def scParams : Params :=
  { network := "ethereum"
    tokenAddress := "0xT"
    fromDate := "2024-01-01"
    toDate := "2024-01-01"
    walletAddress := "0xW"
    rpcProvider := RpcProvider.publicRpc
    alchemyApiKey := none }

/-- The record `getTransferRecords scEnv scLedger scParams` resolves. -/
def scRecord : TransferRecord :=
  { amount := 7
    amountRaw := "7"
    blockNumber := 2
    date := "2024-01-01"
    fromAddr := "0xA"
    logIndex := 5
    network := "mainnet"
    timestamp := 1704067220
    toAddr := "0xW"
    tokenAddress := "0xT"
    tokenSymbol := "TOK"
    txHash := "0xh"
    uniqueId := "mainnet-0xh-5" }

/-- A six-block ledger on which all blocks share one timestamp and the
two matching events sit in blocks 5 and 3 with log indices 1 and 2:
the final sort then orders the block-5 record first. -/
def scTieLedger : Ledger :=
  { latestNumber := 5
    timestampOf := fun _ => 1704067200
    logs := [⟨some "0xa", some 1, 5, some "0xA", some "0xW", some 1⟩,
             ⟨some "0xb", some 2, 3, some "0xB", some "0xW", some 2⟩]
    decimals := 0
    symbol := "TOK" }

/-- A two-block ledger whose head timestamp (100) predates the search
targets used against it. -/
def scPastLedger : Ledger :=
  { latestNumber := 1
    timestampOf := fun _ => 100
    logs := []
    decimals := 0
    symbol := "T" }

/-- Event in block 1, log index 0, hash `"0xa"` (tie scenario for the
merge stage). -/
def scTieLogA : TransferLog := ⟨some "0xa", some 0, 1, some "0xA", some "0xW", some 1⟩

/-- Event in block 2, log index 0, hash `"0xb"` (tie scenario for the
merge stage). -/
def scTieLogB : TransferLog := ⟨some "0xb", some 0, 2, some "0xB", some "0xW", some 2⟩

/-- Both tie-scenario blocks resolve to the same timestamp. -/
def scTieTs : Nat → Option Int := fun _ => some 100

/-- A well-formed incoming transfer (block 1, log 1). -/
def scGoodLog : TransferLog := ⟨some "0xg", some 1, 1, some "0xA", some "0xW", some 5⟩

/-- A transfer whose transaction hash is missing. -/
def scBadLog : TransferLog := ⟨none, some 2, 1, some "0xB", some "0xW", some 6⟩

/-- A self-transfer: the wallet is sender and receiver (with different
hex case on the two sides). -/
def scSelfLog : TransferLog := ⟨some "0xs", some 0, 1, some "0xW", some "0xw", some 3⟩

/-- The receiver-side event of the decimals-6 example: 1000000 raw
units to the wallet. -/
def scRecvLog : TransferLog := ⟨some "0xr", some 0, 0, some "0xA", some "0xW", some 1000000⟩

/-- The sender-side event of the decimals-6 example: the identical raw
amount, with the wallet as sender. -/
def scSendLog : TransferLog := ⟨some "0xr", some 0, 0, some "0xW", some "0xB", some 1000000⟩

/-- A timestamp oracle resolving every block to timestamp 100. -/
def scTs100 : Nat → Option Int := fun _ => some 100

/-- First record of the tie-ledger run: block 5, log index 1. -/
def c2RecA : TransferRecord :=
  { amount := 1
    amountRaw := "1"
    blockNumber := 5
    date := "2024-01-01"
    fromAddr := "0xA"
    logIndex := 1
    network := "mainnet"
    timestamp := 1704067200
    toAddr := "0xW"
    tokenAddress := "0xT"
    tokenSymbol := "TOK"
    txHash := "0xa"
    uniqueId := "mainnet-0xa-1" }

/-- Second record of the tie-ledger run: block 3, log index 2. -/
def c2RecB : TransferRecord :=
  { amount := 2
    amountRaw := "2"
    blockNumber := 3
    date := "2024-01-01"
    fromAddr := "0xB"
    logIndex := 2
    network := "mainnet"
    timestamp := 1704067200
    toAddr := "0xW"
    tokenAddress := "0xT"
    tokenSymbol := "TOK"
    txHash := "0xb"
    uniqueId := "mainnet-0xb-2" }

/-- The record `scGoodLog` maps to under `scTs100`. -/
def scGoodRec : TransferRecord :=
  { amount := 5
    amountRaw := "5"
    blockNumber := 1
    date := "1970-01-01"
    fromAddr := "0xA"
    logIndex := 1
    network := "mainnet"
    timestamp := 100
    toAddr := "0xW"
    tokenAddress := "0xT"
    tokenSymbol := "TOK"
    txHash := "0xg"
    uniqueId := "mainnet-0xg-1" }

/-- The record the self-transfer `scSelfLog` maps to. -/
def scSelfRec : TransferRecord :=
  { amount := 3
    amountRaw := "3"
    blockNumber := 1
    date := "1970-01-01"
    fromAddr := "0xW"
    logIndex := 0
    network := "mainnet"
    timestamp := 100
    toAddr := "0xw"
    tokenAddress := "0xT"
    tokenSymbol := "TOK"
    txHash := "0xs"
    uniqueId := "mainnet-0xs-0" }

/-- The wallet-as-receiver record of the decimals-6 example. -/
def c5RecvRec : TransferRecord :=
  { amount := 1
    amountRaw := "1000000"
    blockNumber := 0
    date := "1970-01-01"
    fromAddr := "0xA"
    logIndex := 0
    network := "mainnet"
    timestamp := 100
    toAddr := "0xW"
    tokenAddress := "0xT"
    tokenSymbol := "USDC"
    txHash := "0xr"
    uniqueId := "mainnet-0xr-0" }

/-- The wallet-as-sender record of the decimals-6 example. -/
def c5SendRec : TransferRecord :=
  { amount := -1
    amountRaw := "1000000"
    blockNumber := 0
    date := "1970-01-01"
    fromAddr := "0xW"
    logIndex := 0
    network := "mainnet"
    timestamp := 100
    toAddr := "0xB"
    tokenAddress := "0xT"
    tokenSymbol := "USDC"
    txHash := "0xr"
    uniqueId := "mainnet-0xr-0" }

/-- Parameters with a malformed from-date (month 13). -/
def scBadDateParams : Params :=
  { network := "ethereum"
    tokenAddress := "0xT"
    fromDate := "2024-13-01"
    toDate := "2024-01-01"
    walletAddress := "0xW"
    rpcProvider := RpcProvider.publicRpc
    alchemyApiKey := none }

/-- Parameters whose from-date is after the to-date. -/
def scInvertedParams : Params :=
  { network := "ethereum"
    tokenAddress := "0xT"
    fromDate := "2024-01-02"
    toDate := "2024-01-01"
    walletAddress := "0xW"
    rpcProvider := RpcProvider.publicRpc
    alchemyApiKey := none }

/-- An attempt oracle on which every attempt runs 40 seconds and would
fail: every attempt times out under the 30-second deadline. -/
def scTimeoutAttempt : Nat → Attempt Nat :=
  fun _ => ⟨40000, Except.error ⟨"boom"⟩⟩

/-! ## General lemmas about `M` -/

@[simp] theorem M.run_bind {α β : Type} (x : M α) (f : α → M β) (n : Nat) :
    (x >>= f).run n =
      match x.run n with
      | (Except.ok a, n') => (f a).run n'
      | (Except.error e, n') => (Except.error e, n') := rfl

@[simp] theorem M.run_pure {α : Type} (a : α) (n : Nat) :
    (Pure.pure (f := M) a).run n = (Except.ok a, n) := rfl

@[simp] theorem M.run_fail {α : Type} (e : ChainError) (n : Nat) :
    (M.fail (α := α) e).run n = (Except.error e, n) := rfl

@[simp] theorem M.run_rpc {α : Type} (a : α) (n : Nat) :
    (M.rpc a).run n = (Except.ok a, n + 1) := rfl

theorem M.bind_ok {α β : Type} {x : M α} {f : α → M β} {n n' : Nat} {b : β}
    (h : (x >>= f).run n = (Except.ok b, n')) :
    ∃ a m, x.run n = (Except.ok a, m) ∧ (f a).run m = (Except.ok b, n') := by
  rcases hx : x.run n with ⟨res, m⟩
  cases res with
  | ok a =>
    refine ⟨a, m, rfl, ?_⟩
    simpa [M.run_bind, hx] using h
  | error e => simp [M.run_bind, hx] at h

theorem M.bind_ok_of {α β : Type} {x : M α} {f : α → M β} {n m n' : Nat} {a : α} {b : β}
    (hx : x.run n = (Except.ok a, m)) (hf : (f a).run m = (Except.ok b, n')) :
    (x >>= f).run n = (Except.ok b, n') := by
  simp [M.run_bind, hx, hf]

/-! ## Binary search: `findBlockGo` and `findBlockAtOrAfter` -/

theorem findBlockGo_ok (L : Ledger) (target : Int) :
    ∀ (fuel left right n : Nat), ∃ r n',
      (findBlockGo L target fuel left right).run n = (Except.ok r, n') := by
  intro fuel
  induction fuel with
  | zero => intro left right n; exact ⟨left, n, rfl⟩
  | succ fuel ih =>
    intro left right n
    by_cases h : left < right
    · simp only [findBlockGo, if_pos h, M.run_bind, fetchBlockTimestamp, M.run_rpc]
      by_cases ht : L.timestampOf ((left + right) / 2) < target
      · rw [if_pos ht]; exact ih _ _ _
      · rw [if_neg ht]; exact ih _ _ _
    · exact ⟨left, n, by simp [findBlockGo, if_neg h, M.run_pure]⟩

theorem findBlockGo_spec {L : Ledger} {target : Int} (mono : MonotoneTs L) :
    ∀ (fuel left right n : Nat) {r n' : Nat},
      right - left ≤ fuel → left ≤ right →
      (∀ b, b < left → L.timestampOf b < target) →
      target ≤ L.timestampOf right →
      (findBlockGo L target fuel left right).run n = (Except.ok r, n') →
      left ≤ r ∧ r ≤ right ∧ target ≤ L.timestampOf r ∧
        ∀ b, b < r → L.timestampOf b < target := by
  intro fuel
  induction fuel with
  | zero =>
    intro left right n r n' hfuel hlr hA hB hrun
    have heq : left = right := by omega
    subst heq
    have : r = left := by
      simpa [findBlockGo, M.run_pure] using congrArg (fun q => q.1) hrun.symm
    subst this
    exact ⟨le_refl _, le_refl _, hB, hA⟩
  | succ fuel ih =>
    intro left right n r n' hfuel hlr hA hB hrun
    by_cases h : left < right
    · simp only [findBlockGo, if_pos h, M.run_bind, fetchBlockTimestamp, M.run_rpc] at hrun
      by_cases ht : L.timestampOf ((left + right) / 2) < target
      · rw [if_pos ht] at hrun
        have hstep := ih ((left + right) / 2 + 1) right (n + 1)
          (by omega) (by omega)
          (fun b hb => lt_of_le_of_lt (mono b ((left + right) / 2) (by omega)) ht)
          hB hrun
        exact ⟨by omega, hstep.2.1, hstep.2.2.1, hstep.2.2.2⟩
      · rw [if_neg ht] at hrun
        have hstep := ih left ((left + right) / 2) (n + 1)
          (by omega) (by omega) hA (le_of_not_lt ht) hrun
        exact ⟨hstep.1, by omega, hstep.2.2.1, hstep.2.2.2⟩
    · have heq : left = right := by omega
      subst heq
      have : r = left := by
        simpa [findBlockGo, if_neg h, M.run_pure] using congrArg (fun q => q.1) hrun.symm
      subst this
      exact ⟨le_refl _, le_refl _, hB, hA⟩

/-- Correctness of the binary search: on a monotone ledger whose head
timestamp reaches the target, `findBlockAtOrAfter` returns the least
block at or before the head whose timestamp is at or past the target. -/
theorem findBlockAtOrAfter_spec {L : Ledger} {target : Int} {latest n r n' : Nat}
    (mono : MonotoneTs L) (hhead : target ≤ L.timestampOf latest)
    (hrun : (findBlockAtOrAfter L target latest).run n = (Except.ok r, n')) :
    r ≤ latest ∧ target ≤ L.timestampOf r ∧ ∀ b, b < r → L.timestampOf b < target := by
  have h := findBlockGo_spec mono latest 0 latest n (by omega) (by omega)
    (fun b hb => absurd hb (Nat.not_lt_zero b)) hhead hrun
  exact ⟨h.2.1, h.2.2.1, h.2.2.2⟩

/-! ## The remaining RPC operations never fail in the ledger model
(only validation and configuration can fail); each returns some value
at some counter. -/

theorem fetchLatestBlock_run (L : Ledger) (n : Nat) :
    (fetchLatestBlock L).run n = (Except.ok (L.latestNumber, L.timestampOf L.latestNumber), n + 1) := rfl

theorem fetchTokenMeta_run (L : Ledger) (n : Nat) :
    (fetchTokenMeta L).run n = (Except.ok (L.decimals, L.symbol), n + 2) := rfl

theorem fetchTransfersGo_ok (L : Ledger) (wallet : String) (dir : Direction) (toBlock : Nat) :
    ∀ (fuel current n : Nat), ∃ r n',
      (fetchTransfersGo L wallet dir toBlock fuel current).run n = (Except.ok r, n') := by
  intro fuel
  induction fuel with
  | zero => intro current n; exact ⟨[], n, rfl⟩
  | succ fuel ih =>
    intro current n
    by_cases h : current ≤ toBlock
    · simp only [fetchTransfersGo, if_pos h, M.run_bind, queryTransferLogs, M.run_rpc]
      obtain ⟨r, n', hr⟩ := ih _ (n + 1)
      rw [hr]
      exact ⟨_, n', rfl⟩
    · exact ⟨[], n, by simp [fetchTransfersGo, if_neg h, M.run_pure]⟩

theorem fetchTransfers_ok (L : Ledger) (wallet : String) (dir : Direction)
    (fromBlock toBlock n : Nat) : ∃ r n',
      (fetchTransfers L wallet dir fromBlock toBlock).run n = (Except.ok r, n') := by
  unfold fetchTransfers
  by_cases h : fromBlock > toBlock
  · exact ⟨[], n, by simp [if_pos h, M.run_pure]⟩
  · rw [if_neg h]
    exact fetchTransfersGo_ok L wallet dir toBlock _ fromBlock n

theorem fetchWalletTransfers_ok (L : Ledger) (wallet : String) (fromBlock toBlock n : Nat) :
    ∃ incoming outgoing n',
      (fetchWalletTransfers L wallet fromBlock toBlock).run n =
        (Except.ok (dedupByKey (incoming ++ outgoing)), n') := by
  obtain ⟨inc, n1, h1⟩ := fetchTransfers_ok L wallet Direction.incoming fromBlock toBlock n
  obtain ⟨out, n2, h2⟩ := fetchTransfers_ok L wallet Direction.outgoing fromBlock toBlock n1
  exact ⟨inc, out, n2, by simp [fetchWalletTransfers, M.run_bind, h1, h2, M.run_pure]⟩

theorem resolveBlockTimestamps_run (L : Ledger) :
    ∀ (blocks : List Nat) (n : Nat),
      (resolveBlockTimestamps L blocks).run n =
        (Except.ok (blocks.map fun b => (b, L.timestampOf b)), n + blocks.length) := by
  intro blocks
  induction blocks with
  | nil => intro n; rfl
  | cons b rest ih =>
    intro n
    have harith : n + 1 + rest.length = n + (rest.length + 1) := by omega
    simp only [resolveBlockTimestamps, M.run_bind, fetchBlockTimestamp, M.run_rpc, ih (n + 1),
      M.run_pure, List.map_cons, List.length_cons, harith]

theorem resolveBlockRange_ok (L : Ledger) (fromTimestamp toTimestamp : Int) (n : Nat) :
    ∃ range n', (resolveBlockRange L fromTimestamp toTimestamp).run n = (Except.ok range, n') := by
  obtain ⟨fb, n1, h1⟩ := findBlockGo_ok L fromTimestamp L.latestNumber 0 L.latestNumber (n + 1)
  by_cases h : toTimestamp ≥ L.timestampOf L.latestNumber
  · refine ⟨(fb, (L.latestNumber : Int)), n1, ?_⟩
    refine M.bind_ok_of (fetchLatestBlock_run L n) ?_
    refine M.bind_ok_of h1 ?_
    simp only [if_pos h, M.run_bind, M.run_pure]
  · obtain ⟨tb, n2, h2⟩ := findBlockGo_ok L (toTimestamp + 1) L.latestNumber 0 L.latestNumber n1
    refine ⟨(fb, (tb : Int) - 1), n2, ?_⟩
    refine M.bind_ok_of (fetchLatestBlock_run L n) ?_
    refine M.bind_ok_of h1 ?_
    have h2' : (findBlockAtOrAfter L (toTimestamp + 1) L.latestNumber).run n1 = (Except.ok tb, n2) := h2
    simp only [if_neg h, M.run_bind, M.run_pure, h2']

theorem makeClient_ok_inv {env : ChainsEnv} {network : String} {rp : RpcProvider}
    {apiKey : Option String} {n n' : Nat} {k : String}
    (h : (makeClient env network rp apiKey).run n = (Except.ok k, n')) :
    k = normalizeNetworkKey (strTrim network) ∧
      env.hasKey (normalizeNetworkKey (strTrim network)) = true ∧ n' = n := by
  simp only [makeClient, resolveChainOption] at h
  by_cases hk : env.hasKey (normalizeNetworkKey (strTrim network))
  · simp only [hk, if_true] at h
    cases rp with
    | publicRpc =>
      simp only [M.pure] at h
      refine ⟨?_, hk, ?_⟩
      · exact (Prod.mk.injEq _ _ _ _ ▸ h).1 |> Except.ok.inj |>.symm
      · exact ((Prod.mk.injEq _ _ _ _ ▸ h).2).symm
    | alchemy =>
      by_cases hkey : (strTrim (apiKey.getD "")).length = 0
      · simp only [hkey, if_pos, M.run_fail] at h
        exact absurd (congrArg (fun q => q.1) h) (by simp)
      · simp only [hkey, if_neg, M.pure] at h
        refine ⟨?_, hk, ?_⟩
        · exact (Prod.mk.injEq _ _ _ _ ▸ h).1 |> Except.ok.inj |>.symm
        · exact ((Prod.mk.injEq _ _ _ _ ▸ h).2).symm
  · simp only [hk, if_false, M.run_fail] at h
    exact absurd (congrArg (fun q => q.1) h) (by simp)

/-- Inversion principle for successful runs: every record list a
successful `getTransferRecords` run returns is either empty or the
merge-and-normalize of the deduplicated union of the two directional
scans, tagged with the resolved network key and the fetched token
metadata. -/
theorem getTransferRecords_ok_inv {env : ChainsEnv} {L : Ledger} {p : Params}
    {n n' : Nat} {records : List TransferRecord}
    (h : (getTransferRecords env L p).run n = (Except.ok records, n')) :
    records = [] ∨ ∃ tsOf incoming outgoing, records =
      mapAndSort (normalizeNetworkKey (strTrim p.network)) L.decimals L.symbol
        p.walletAddress p.tokenAddress tsOf (dedupByKey (incoming ++ outgoing)) := by
  unfold getTransferRecords at h
  obtain ⟨ft, m1, h1, h⟩ := M.bind_ok h
  obtain ⟨tt, m2, h2, h⟩ := M.bind_ok h
  by_cases hcmp : ft > tt
  · rw [if_pos hcmp] at h
    exact absurd (congrArg (fun q => q.1) h) (by simp [M.run_fail])
  · rw [if_neg hcmp] at h
    obtain ⟨netKey, m3, h3, h⟩ := M.bind_ok h
    obtain ⟨range, m4, h4, h⟩ := M.bind_ok h
    dsimp only at h
    by_cases hr : ((range.1 : Int) > range.2)
    · rw [if_pos hr] at h
      left
      simpa [M.run_pure] using (congrArg (fun q => q.1) h).symm
    · rw [if_neg hr] at h
      obtain ⟨meta, m5, h5, h⟩ := M.bind_ok h
      have hmeta : meta = (L.decimals, L.symbol) := by
        rw [fetchTokenMeta_run L m4] at h5
        exact (Except.ok.inj (Prod.mk.injEq _ _ _ _ ▸ h5).1).symm
      obtain ⟨raw, m6, h6, h⟩ := M.bind_ok h
      obtain ⟨inc, out, n6, hraw⟩ := fetchWalletTransfers_ok L p.walletAddress range.1 range.2.toNat m5
      rw [h6] at hraw
      have hraweq : raw = dedupByKey (inc ++ out) :=
        Except.ok.inj (Prod.mk.injEq _ _ _ _ ▸ hraw).1
      by_cases hlen : raw.length = 0
      · rw [if_pos hlen] at h
        left
        simpa [M.run_pure] using (congrArg (fun q => q.1) h).symm
      · rw [if_neg hlen] at h
        obtain ⟨tstamps, m7, h7, h⟩ := M.bind_ok h
        right
        refine ⟨lookupTimestamp tstamps, inc, out, ?_⟩
        have hrec : records = mapAndSort netKey meta.1 meta.2 p.walletAddress p.tokenAddress
            (lookupTimestamp tstamps) raw := by
          simpa [M.run_pure] using (congrArg (fun q => q.1) h).symm
        rw [hrec, (makeClient_ok_inv h3).1, hmeta, hraweq]

/-- Success principle: when both dates parse, the range is not
inverted, and the network key resolves (with the public RPC provider),
`getTransferRecords` always returns a record list — no content of the
ledger (malformed events included) can make the resolution fail. -/
theorem getTransferRecords_ok_of_valid {env : ChainsEnv} {L : Ledger} {p : Params}
    {ft tt : Int} (n : Nat)
    (hft : parseUtcDate p.fromDate false = some ft)
    (htt : parseUtcDate p.toDate true = some tt)
    (hord : ¬ ft > tt)
    (hk : env.hasKey (normalizeNetworkKey (strTrim p.network)) = true)
    (hrp : p.rpcProvider = RpcProvider.publicRpc) :
    ∃ records n', (getTransferRecords env L p).run n = (Except.ok records, n') := by
  have hp1 : (parseUtcDateM p.fromDate false).run n = (Except.ok ft, n) := by
    simp [parseUtcDateM, hft]
  have hp2 : (parseUtcDateM p.toDate true).run n = (Except.ok tt, n) := by
    simp [parseUtcDateM, htt]
  have hmc : (makeClient env p.network p.rpcProvider p.alchemyApiKey).run n =
      (Except.ok (normalizeNetworkKey (strTrim p.network)), n) := by
    simp [makeClient, resolveChainOption, hk, hrp, M.pure]
  obtain ⟨range, n4, h4⟩ := resolveBlockRange_ok L ft tt n
  unfold getTransferRecords
  by_cases hr : ((range.1 : Int) > range.2)
  · refine ⟨[], n4, ?_⟩
    refine M.bind_ok_of hp1 ?_
    refine M.bind_ok_of hp2 ?_
    rw [if_neg hord]
    refine M.bind_ok_of hmc ?_
    refine M.bind_ok_of h4 ?_
    dsimp only
    rw [if_pos hr]
    rfl
  · obtain ⟨inc, out, n6, h6⟩ :=
      fetchWalletTransfers_ok L p.walletAddress range.1 range.2.toNat (n4 + 2)
    by_cases hlen : (dedupByKey (inc ++ out)).length = 0
    · refine ⟨[], n6, ?_⟩
      refine M.bind_ok_of hp1 ?_
      refine M.bind_ok_of hp2 ?_
      rw [if_neg hord]
      refine M.bind_ok_of hmc ?_
      refine M.bind_ok_of h4 ?_
      dsimp only
      rw [if_neg hr]
      refine M.bind_ok_of (fetchTokenMeta_run L n4) ?_
      refine M.bind_ok_of h6 ?_
      dsimp only
      rw [if_pos hlen]
      rfl
    · refine ⟨mapAndSort (normalizeNetworkKey (strTrim p.network)) L.decimals L.symbol
        p.walletAddress p.tokenAddress
        (lookupTimestamp ((dedupKeepFirst ((dedupByKey (inc ++ out)).map TransferLog.blockNumber)).map
          fun b => (b, L.timestampOf b)))
        (dedupByKey (inc ++ out)),
        n6 + (dedupKeepFirst ((dedupByKey (inc ++ out)).map TransferLog.blockNumber)).length, ?_⟩
      refine M.bind_ok_of hp1 ?_
      refine M.bind_ok_of hp2 ?_
      rw [if_neg hord]
      refine M.bind_ok_of hmc ?_
      refine M.bind_ok_of h4 ?_
      dsimp only
      rw [if_neg hr]
      refine M.bind_ok_of (fetchTokenMeta_run L n4) ?_
      refine M.bind_ok_of h6 ?_
      dsimp only
      rw [if_neg hlen]
      refine M.bind_ok_of (resolveBlockTimestamps_run L _ n6) ?_
      rfl

/-! ## String helpers -/

theorem strAppend_left_cancel {a x y : String} (h : a ++ x = a ++ y) : x = y := by
  have hd := congrArg String.data h
  simp only [String.data_append] at hd
  exact String.ext (List.append_cancel_left hd)

/-- The scaled amount equals the raw amount divided by `10 ^ decimals`. -/
theorem formatUnitsQ_eq (value decimals : Nat) :
    formatUnitsQ value decimals = (value : ℚ) / (10 : ℚ) ^ decimals := by
  unfold formatUnitsQ
  rw [Rat.mkRat_eq_div]
  push_cast
  ring

/-! ## The dedup `Map` -/

theorem upsert_map_fst (k : String) (v : TransferLog) :
    ∀ acc, (upsert k v acc).map Prod.fst =
      if k ∈ acc.map Prod.fst then acc.map Prod.fst else acc.map Prod.fst ++ [k] := by
  intro acc
  induction acc with
  | nil => simp [upsert]
  | cons pr rest ih =>
    by_cases hk : pr.1 = k
    · simp [upsert, hk]
    · have hne : k ≠ pr.1 := fun h => hk h.symm
      simp only [upsert, if_neg hk, List.map_cons, ih, List.mem_cons]
      by_cases hmem : k ∈ rest.map Prod.fst
      · simp [hmem, hne]
      · simp [hmem, hne]

theorem mem_upsert {k : String} {v : TransferLog} :
    ∀ {acc pr}, pr ∈ upsert k v acc → pr = (k, v) ∨ pr ∈ acc := by
  intro acc
  induction acc with
  | nil => intro pr h; simp [upsert] at h; exact Or.inl h
  | cons hd rest ih =>
    intro pr h
    by_cases hk : hd.1 = k
    · simp only [upsert, if_pos hk, List.mem_cons] at h
      rcases h with h | h
      · exact Or.inl (by rw [h, hk])
      · exact Or.inr (List.mem_cons_of_mem _ h)
    · simp only [upsert, if_neg hk, List.mem_cons] at h
      rcases h with h | h
      · exact Or.inr (by simp [h])
      · rcases ih h with h' | h'
        · exact Or.inl h'
        · exact Or.inr (List.mem_cons_of_mem _ h')

theorem dedupFold_map_fst_nodup :
    ∀ (l : List TransferLog) (acc : List (String × TransferLog)),
      (acc.map Prod.fst).Nodup →
      ((l.foldl (fun acc e => upsert (logKey e) e acc) acc).map Prod.fst).Nodup := by
  intro l
  induction l with
  | nil => intro acc h; exact h
  | cons e rest ih =>
    intro acc h
    refine ih _ ?_
    rw [upsert_map_fst]
    by_cases hmem : logKey e ∈ acc.map Prod.fst
    · rw [if_pos hmem]; exact h
    · rw [if_neg hmem]
      simp [List.nodup_append, h, hmem]

theorem dedupFold_mem :
    ∀ (l : List TransferLog) (acc : List (String × TransferLog)) (pr : String × TransferLog),
      pr ∈ l.foldl (fun acc e => upsert (logKey e) e acc) acc →
      pr ∈ acc ∨ (pr.2 ∈ l ∧ pr.1 = logKey pr.2) := by
  intro l
  induction l with
  | nil => intro acc pr h; exact Or.inl h
  | cons e rest ih =>
    intro acc pr h
    rcases ih _ pr h with h' | h'
    · rcases mem_upsert h' with h'' | h''
      · refine Or.inr ⟨?_, ?_⟩
        · rw [h'']; exact List.mem_cons_self _ _
        · rw [h'']
      · exact Or.inl h''
    · exact Or.inr ⟨List.mem_cons_of_mem _ h'.1, h'.2⟩

theorem dedupFold_keys_mono :
    ∀ (l : List TransferLog) (acc : List (String × TransferLog)) (k : String),
      k ∈ acc.map Prod.fst →
      k ∈ (l.foldl (fun acc e => upsert (logKey e) e acc) acc).map Prod.fst := by
  intro l
  induction l with
  | nil => intro acc k h; exact h
  | cons e rest ih =>
    intro acc k h
    refine ih _ _ ?_
    rw [upsert_map_fst]
    by_cases hmem : logKey e ∈ acc.map Prod.fst
    · rw [if_pos hmem]; exact h
    · rw [if_neg hmem]; exact List.mem_append_left _ h

theorem dedupFold_key_mem :
    ∀ (l : List TransferLog) (acc : List (String × TransferLog)) (e : TransferLog),
      e ∈ l →
      logKey e ∈ (l.foldl (fun acc e => upsert (logKey e) e acc) acc).map Prod.fst := by
  intro l
  induction l with
  | nil => intro acc e h; exact absurd h (List.not_mem_nil e)
  | cons hd rest ih =>
    intro acc e h
    rcases List.mem_cons.mp h with h' | h'
    · subst h'
      refine dedupFold_keys_mono rest _ _ ?_
      rw [upsert_map_fst]
      by_cases hmem : logKey e ∈ acc.map Prod.fst
      · rw [if_pos hmem]; exact hmem
      · rw [if_neg hmem]; exact List.mem_append_right _ (List.mem_singleton_self _)
    · exact ih _ e h'

theorem dedupByKey_map_logKey (l : List TransferLog) :
    (dedupByKey l).map logKey =
      (l.foldl (fun acc e => upsert (logKey e) e acc) []).map Prod.fst := by
  unfold dedupByKey
  rw [List.map_map]
  refine List.map_congr_left ?_
  intro pr hpr
  rcases dedupFold_mem l [] pr hpr with h | h
  · exact absurd h (List.not_mem_nil pr)
  · exact h.2.symm

theorem dedupByKey_keys_nodup (l : List TransferLog) :
    ((dedupByKey l).map logKey).Nodup := by
  rw [dedupByKey_map_logKey]
  exact dedupFold_map_fst_nodup l [] List.nodup_nil

theorem dedupByKey_subset {l : List TransferLog} {e : TransferLog}
    (h : e ∈ dedupByKey l) : e ∈ l := by
  unfold dedupByKey at h
  rcases List.mem_map.mp h with ⟨pr, hpr, hpe⟩
  rcases dedupFold_mem l [] pr hpr with h' | h'
  · exact absurd h' (List.not_mem_nil pr)
  · rw [← hpe]; exact h'.1

theorem dedupByKey_mem_of {l : List TransferLog} {e : TransferLog}
    (hkf : KeyFunctional l) (he : e ∈ l) : e ∈ dedupByKey l := by
  have hkey := dedupFold_key_mem l [] e he
  rw [← dedupByKey_map_logKey] at hkey
  rcases List.mem_map.mp hkey with ⟨x, hx, hxe⟩
  have := hkf x (dedupByKey_subset hx) e he hxe
  rw [← this]
  exact hx

theorem dedupByKey_nodup (l : List TransferLog) : (dedupByKey l).Nodup :=
  (dedupByKey_keys_nodup l).of_map

/-! ## The mapper and the sort -/

theorem sortRecords_perm (l : List TransferRecord) : (sortRecords l).Perm l :=
  List.perm_insertionSort recLE l

theorem sortRecords_sorted (l : List TransferRecord) : (sortRecords l).Pairwise recLE :=
  List.sorted_insertionSort recLE l

theorem mapEntry_some_inv {netKey : String} {dec : Nat} {sym w tok : String}
    {tsOf : Nat → Option Int} {e : TransferLog} {r : TransferRecord}
    (h : mapEntry netKey dec sym w tok tsOf e = some r) :
    ∃ ts i hsh fA tA v, tsOf e.blockNumber = some ts ∧ e.logIndex = some i ∧
      e.transactionHash = some hsh ∧ e.argsFrom = some fA ∧ e.argsTo = some tA ∧
      e.argsValue = some v ∧ ¬fA = "" ∧ ¬tA = "" ∧
      r = { amount := if strToLower tA = strToLower w then formatUnitsQ v dec
              else -(formatUnitsQ v dec)
            amountRaw := toString v
            blockNumber := e.blockNumber
            date := tsToDateString ts
            fromAddr := fA
            logIndex := i
            network := netKey
            timestamp := ts
            toAddr := tA
            tokenAddress := tok
            tokenSymbol := sym
            txHash := hsh
            uniqueId := netKey ++ "-" ++ hsh ++ "-" ++ toString i } := by
  unfold mapEntry at h
  rcases h1 : tsOf e.blockNumber with _ | ts
  · rw [h1] at h; exact absurd h (by simp)
  rcases h2 : e.logIndex with _ | i
  · rw [h1, h2] at h; exact absurd h (by simp)
  rcases h3 : e.transactionHash with _ | hsh
  · rw [h1, h2, h3] at h; exact absurd h (by simp)
  rcases h4 : e.argsFrom with _ | fA
  · rw [h1, h2, h3, h4] at h; exact absurd h (by simp)
  rcases h5 : e.argsTo with _ | tA
  · rw [h1, h2, h3, h4, h5] at h; exact absurd h (by simp)
  rcases h6 : e.argsValue with _ | v
  · rw [h1, h2, h3, h4, h5, h6] at h; exact absurd h (by simp)
  rw [h1, h2, h3, h4, h5, h6] at h
  by_cases hfa : fA = ""
  · simp [hfa] at h
  by_cases hta : tA = ""
  · simp [hta] at h
  refine ⟨ts, i, hsh, fA, tA, v, rfl, rfl, rfl, rfl, rfl, rfl, hfa, hta, ?_⟩
  simp only [hfa, hta, Bool.or_self, decide_eq_true_eq, if_neg, ite_false,
    Option.some.injEq] at h
  exact h.symm

theorem mapEntry_uniqueId_network {netKey : String} {dec : Nat} {sym w tok : String}
    {tsOf : Nat → Option Int} {e : TransferLog} {r : TransferRecord}
    (h : mapEntry netKey dec sym w tok tsOf e = some r) :
    r.uniqueId = netKey ++ "-" ++ logKey e ∧ r.network = netKey := by
  obtain ⟨ts, i, hsh, fA, tA, v, h1, h2, h3, h4, h5, h6, _, _, hr⟩ := mapEntry_some_inv h
  subst hr
  refine ⟨?_, rfl⟩
  show netKey ++ "-" ++ hsh ++ "-" ++ toString i = netKey ++ "-" ++ logKey e
  unfold logKey
  rw [h2, h3]
  apply String.ext
  simp [List.append_assoc]

theorem mapEntry_none_of_missing {netKey : String} {dec : Nat} {sym w tok : String}
    {tsOf : Nat → Option Int} {e : TransferLog} (hmiss : MissingStructuralField e) :
    mapEntry netKey dec sym w tok tsOf e = none := by
  rcases hm : mapEntry netKey dec sym w tok tsOf e with _ | r
  · rfl
  · exfalso
    obtain ⟨ts, i, hsh, fA, tA, v, h1, h2, h3, h4, h5, h6, _, _, _⟩ := mapEntry_some_inv hm
    rcases hmiss with h | h | h | h | h <;> simp_all

theorem filterMap_mapEntry_uniqueId_nodup {netKey : String} {dec : Nat} {sym w tok : String}
    {tsOf : Nat → Option Int} :
    ∀ l : List TransferLog, (l.map logKey).Nodup →
      ((l.filterMap (mapEntry netKey dec sym w tok tsOf)).map TransferRecord.uniqueId).Nodup := by
  intro l
  induction l with
  | nil => intro h; simp
  | cons e rest ih =>
    intro h
    rw [List.map_cons] at h
    obtain ⟨hnotin, hrest⟩ := List.nodup_cons.mp h
    cases hf : mapEntry netKey dec sym w tok tsOf e with
    | none =>
      rw [List.filterMap_cons_none hf]
      exact ih hrest
    | some r =>
      rw [List.filterMap_cons_some hf, List.map_cons]
      refine List.nodup_cons.mpr ⟨?_, ih hrest⟩
      intro hmem
      rcases List.mem_map.mp hmem with ⟨r', hr', hru⟩
      rcases List.mem_filterMap.mp hr' with ⟨e', he', hfe'⟩
      have k1 := (mapEntry_uniqueId_network hf).1
      have k2 := (mapEntry_uniqueId_network hfe').1
      have hkeys : logKey e' = logKey e := by
        refine strAppend_left_cancel (a := netKey ++ "-") ?_
        rw [← k1, ← k2, hru]
      exact hnotin (hkeys ▸ List.mem_map_of_mem logKey he')

theorem filterMap_filter_key_single {netKey : String} {dec : Nat} {sym w tok : String}
    {tsOf : Nat → Option Int} :
    ∀ (l : List TransferLog) (e : TransferLog) (r : TransferRecord),
      (l.map logKey).Nodup → e ∈ l → mapEntry netKey dec sym w tok tsOf e = some r →
      (l.filterMap (mapEntry netKey dec sym w tok tsOf)).filter
        (fun r' => r'.uniqueId == netKey ++ "-" ++ logKey e) = [r] := by
  intro l
  induction l with
  | nil => intro e r _ he _; exact absurd he (List.not_mem_nil e)
  | cons x rest ih =>
    intro e r hnd he hf
    rw [List.map_cons] at hnd
    obtain ⟨hnotin, hrest⟩ := List.nodup_cons.mp hnd
    rcases List.mem_cons.mp he with he' | he'
    · subst he'
      rw [List.filterMap_cons_some hf]
      have hpr : (r.uniqueId == netKey ++ "-" ++ logKey e) = true := by
        rw [(mapEntry_uniqueId_network hf).1]
        exact beq_self_eq_true _
      rw [List.filter_cons, if_pos hpr]
      have hrest_nil : (rest.filterMap (mapEntry netKey dec sym w tok tsOf)).filter
          (fun r' => r'.uniqueId == netKey ++ "-" ++ logKey e) = [] := by
        rw [List.filter_eq_nil_iff]
        intro r' hr'
        rcases List.mem_filterMap.mp hr' with ⟨e', he', hfe'⟩
        rw [(mapEntry_uniqueId_network hfe').1]
        intro hbeq
        have : logKey e' = logKey e :=
          strAppend_left_cancel (a := netKey ++ "-") (by exact_mod_cast eq_of_beq hbeq)
        exact hnotin (this ▸ List.mem_map_of_mem logKey he')
      rw [hrest_nil]
    · have hkey : logKey x ≠ logKey e := by
        intro hxe
        exact hnotin (hxe ▸ List.mem_map_of_mem logKey he')
      cases hfx : mapEntry netKey dec sym w tok tsOf x with
      | none =>
        rw [List.filterMap_cons_none hfx]
        exact ih e r hrest he' hf
      | some rx =>
        have hneq : ¬(rx.uniqueId == netKey ++ "-" ++ logKey e) = true := by
          rw [(mapEntry_uniqueId_network hfx).1]
          intro hbeq
          exact hkey (strAppend_left_cancel (a := netKey ++ "-") (eq_of_beq hbeq))
        rw [List.filterMap_cons_some hfx, List.filter_cons, if_neg hneq]
        exact ih e r hrest he' hf

theorem dedupByKey_perm {l₁ l₂ : List TransferLog} (hp : l₁.Perm l₂)
    (hkf : KeyFunctional l₁) : (dedupByKey l₁).Perm (dedupByKey l₂) := by
  have hkf₂ : KeyFunctional l₂ := fun x hx y hy =>
    hkf x (hp.mem_iff.mpr hx) y (hp.mem_iff.mpr hy)
  refine (List.perm_ext_iff_of_nodup (dedupByKey_nodup l₁) (dedupByKey_nodup l₂)).mpr ?_
  intro e
  constructor
  · intro h
    exact dedupByKey_mem_of hkf₂ (hp.subset (dedupByKey_subset h))
  · intro h
    exact dedupByKey_mem_of hkf (hp.symm.subset (dedupByKey_subset h))

theorem sorted_eq_of_perm_of_key_distinct {l₁ l₂ : List TransferRecord}
    (hperm : l₁.Perm l₂) (hs₁ : l₁.Pairwise recLE) (hs₂ : l₂.Pairwise recLE)
    (hne : l₁.Pairwise fun a b => ¬(a.timestamp = b.timestamp ∧ a.logIndex = b.logIndex)) :
    l₁ = l₂ := by
  have hsymm : ∀ {x y : TransferRecord},
      ¬(x.timestamp = y.timestamp ∧ x.logIndex = y.logIndex) →
      ¬(y.timestamp = x.timestamp ∧ y.logIndex = x.logIndex) := by
    intro x y h hc
    exact h ⟨hc.1.symm, hc.2.symm⟩
  have hne₂ : l₂.Pairwise (fun a b =>
      ¬(a.timestamp = b.timestamp ∧ a.logIndex = b.logIndex)) :=
    (hperm.pairwise_iff hsymm).mp hne
  have hs₁' : l₁.Pairwise recLT := by
    refine (hs₁.and hne).imp ?_
    intro a b hab
    have h1 := hab.1
    have h2 := hab.2
    unfold recLE at h1
    unfold recLT
    omega
  have hs₂' : l₂.Pairwise recLT := by
    refine (hs₂.and hne₂).imp ?_
    intro a b hab
    have h1 := hab.1
    have h2 := hab.2
    unfold recLE at h1
    unfold recLT
    omega
  exact List.eq_of_perm_of_sorted hperm hs₁' hs₂'

theorem mergeNormalize_perm_invariant {netKey : String} {dec : Nat} {sym w tok : String}
    {tsOf : Nat → Option Int} {l₁ l₂ : List TransferLog}
    (hp : l₁.Perm l₂) (hkf : KeyFunctional l₁)
    (hdist : ∀ x, x ∈ l₁ → ∀ y, y ∈ l₁ → x ≠ y →
      ¬(tsOf x.blockNumber = tsOf y.blockNumber ∧ x.logIndex = y.logIndex)) :
    mapAndSort netKey dec sym w tok tsOf (dedupByKey l₁) =
      mapAndSort netKey dec sym w tok tsOf (dedupByKey l₂) := by
  have hdperm : (dedupByKey l₁).Perm (dedupByKey l₂) := dedupByKey_perm hp hkf
  have hfperm := hdperm.filterMap (mapEntry netKey dec sym w tok tsOf)
  unfold mapAndSort
  have hsymm : ∀ {x y : TransferRecord},
      ¬(x.timestamp = y.timestamp ∧ x.logIndex = y.logIndex) →
      ¬(y.timestamp = x.timestamp ∧ y.logIndex = x.logIndex) := by
    intro x y h hc
    exact h ⟨hc.1.symm, hc.2.symm⟩
  have hpair2 : (dedupByKey l₁).Pairwise (fun x y =>
      ¬(tsOf x.blockNumber = tsOf y.blockNumber ∧ x.logIndex = y.logIndex)) := by
    refine (dedupByKey_nodup l₁).imp_of_mem ?_
    intro x y hx hy hne
    exact hdist x (dedupByKey_subset hx) y (dedupByKey_subset hy) hne
  have hrec : ((dedupByKey l₁).filterMap (mapEntry netKey dec sym w tok tsOf)).Pairwise
      (fun a b => ¬(a.timestamp = b.timestamp ∧ a.logIndex = b.logIndex)) := by
    refine hpair2.filterMap _ ?_
    intro a a' hne b hb b' hb'
    rw [Option.mem_def] at hb hb'
    obtain ⟨ts, i, _, _, _, _, ha1, ha2, _, _, _, _, _, _, hb_eq⟩ := mapEntry_some_inv hb
    obtain ⟨ts', i', _, _, _, _, ha1', ha2', _, _, _, _, _, _, hb_eq'⟩ := mapEntry_some_inv hb'
    subst hb_eq
    subst hb_eq'
    intro hcon
    apply hne
    constructor
    · rw [ha1, ha1']
      exact congrArg some hcon.1
    · rw [ha2, ha2']
      exact congrArg some hcon.2
  apply sorted_eq_of_perm_of_key_distinct
  · exact (sortRecords_perm _).trans (hfperm.trans (sortRecords_perm _).symm)
  · exact sortRecords_sorted _
  · exact sortRecords_sorted _
  · exact ((sortRecords_perm _).pairwise_iff hsymm).mpr hrec

/-! ## Claim theorems -/

/-- C4 (confirmed): whenever either date string is not a well-formed
calendar date, or the parsed start-of-day instant of `fromDate` is
after the parsed end-of-day instant of `toDate`, `getTransferRecords`
fails with a validation `ChainError` and the RPC counter is unchanged:
no network request is issued. -/
theorem claim_C4 (env : ChainsEnv) (L : Ledger) (p : Params) (n : Nat)
    (hbad : parseUtcDate p.fromDate false = none ∨ parseUtcDate p.toDate true = none ∨
      ∃ ft tt, parseUtcDate p.fromDate false = some ft ∧ parseUtcDate p.toDate true = some tt ∧
        ft > tt) :
    ∃ e : ChainError, (getTransferRecords env L p).run n = (Except.error e, n) := by
  unfold getTransferRecords
  rcases hf : parseUtcDate p.fromDate false with _ | ft
  · refine ⟨⟨"Invalid date \"" ++ p.fromDate ++ "\". Use YYYY-MM-DD format."⟩, ?_⟩
    simp [M.run_bind, parseUtcDateM, hf, M.run_fail]
  · rcases ht : parseUtcDate p.toDate true with _ | tt
    · refine ⟨⟨"Invalid date \"" ++ p.toDate ++ "\". Use YYYY-MM-DD format."⟩, ?_⟩
      simp [M.run_bind, parseUtcDateM, hf, ht, M.run_fail, M.run_pure]
    · rcases hbad with h | h | hinv
      · rw [hf] at h
        exact absurd h (by simp)
      · rw [ht] at h
        exact absurd h (by simp)
      · obtain ⟨ft', tt', hft', htt', hgt⟩ := hinv
        rw [hf] at hft'
        rw [ht] at htt'
        obtain rfl : ft' = ft := (Option.some.inj hft').symm
        obtain rfl : tt' = tt := (Option.some.inj htt').symm
        refine ⟨⟨"`from` date must be earlier than or equal to `to` date."⟩, ?_⟩
        simp [M.run_bind, parseUtcDateM, hf, ht, M.run_pure, if_pos hgt, M.run_fail]

/-- Witness for C4: a month-13 date is rejected, and an inverted range
is rejected, both with the counter still at zero. -/
theorem claim_C4_witness :
    (parseUtcDate scBadDateParams.fromDate false = none ∧
      ∃ e, (getTransferRecords scEnv scLedger scBadDateParams).run 0 = (Except.error e, 0)) ∧
    ((∃ ft tt, parseUtcDate scInvertedParams.fromDate false = some ft ∧
        parseUtcDate scInvertedParams.toDate true = some tt ∧ ft > tt) ∧
      ∃ e, (getTransferRecords scEnv scLedger scInvertedParams).run 0 = (Except.error e, 0)) :=
  ⟨⟨by decide, claim_C4 scEnv scLedger scBadDateParams 0 (Or.inl (by decide))⟩,
   ⟨⟨1704153600, 1704153599, by decide, by decide, by decide⟩,
    claim_C4 scEnv scLedger scInvertedParams 0
      (Or.inr (Or.inr ⟨1704153600, 1704153599, by decide, by decide, by decide⟩))⟩⟩

/-- Counterexample to C2 as stated: on a ledger whose blocks share one
timestamp, a successful run returns the block-5 record (log index 1)
before the block-3 record (log index 2) — adjacent records ordered by
log index but with strictly decreasing block numbers, so the claimed
`(timestamp, blockNumber, logIndex)` ascending order is violated. -/
theorem claim_C2_counterexample :
    (getTransferRecords scEnv scTieLedger scParams).run 0 = (Except.ok [c2RecA, c2RecB], 10) ∧
    c2RecA.timestamp = c2RecB.timestamp ∧ c2RecB.blockNumber < c2RecA.blockNumber ∧
    ¬ claimedOrder c2RecA c2RecB := by
  refine ⟨by decide, by decide, by decide, by decide⟩

/-- C2 (amended): the record sequence of every successful invocation is
sorted ascending by the lexicographic key `(timestamp, logIndex)` in
every adjacent pair — the comparator never consults the block number. -/
theorem claim_C2 {env : ChainsEnv} {L : Ledger} {p : Params} {n n' : Nat}
    {records : List TransferRecord}
    (h : (getTransferRecords env L p).run n = (Except.ok records, n')) :
    records.Chain' recLE := by
  rcases getTransferRecords_ok_inv h with hnil | ⟨tsOf, incoming, outgoing, hrec⟩
  · subst hnil
    exact List.chain'_nil
  · subst hrec
    exact (sortRecords_sorted _).chain'

/-- Witness for C2: the happy-path run returns a singleton list, which
is chained for the comparator order. -/
theorem claim_C2_witness :
    (getTransferRecords scEnv scLedger scParams).run 0 = (Except.ok [scRecord], 8) ∧
    List.Chain' recLE [scRecord] :=
  ⟨by decide, @claim_C2 scEnv scLedger scParams 0 8 [scRecord] (by decide)⟩

/-- C1 (confirmed): the `uniqueId` fields of every successful run are
pairwise distinct, and an event retrieved by both directional queries
(same `(transactionHash, logIndex)` key) yields exactly one record in
the merged output. -/
theorem claim_C1 :
    (∀ (env : ChainsEnv) (L : Ledger) (p : Params) (n n' : Nat)
      (records : List TransferRecord),
      (getTransferRecords env L p).run n = (Except.ok records, n') →
      (records.map TransferRecord.uniqueId).Nodup) ∧
    (∀ (netKey : String) (dec : Nat) (sym w tok : String) (tsOf : Nat → Option Int)
      (incoming outgoing : List TransferLog) (e : TransferLog) (r : TransferRecord),
      KeyFunctional (incoming ++ outgoing) → e ∈ incoming → e ∈ outgoing →
      mapEntry netKey dec sym w tok tsOf e = some r →
      ((mergeNormalize netKey dec sym w tok tsOf incoming outgoing).filter
        (fun r' => r'.uniqueId == netKey ++ "-" ++ logKey e)).length = 1) := by
  constructor
  · intro env L p n n' records h
    rcases getTransferRecords_ok_inv h with hnil | ⟨tsOf, incoming, outgoing, hrec⟩
    · subst hnil
      simp
    · subst hrec
      unfold mapAndSort
      have hinner := @filterMap_mapEntry_uniqueId_nodup
        (normalizeNetworkKey (strTrim p.network)) L.decimals
        L.symbol p.walletAddress p.tokenAddress tsOf
        (dedupByKey (incoming ++ outgoing)) (dedupByKey_keys_nodup _)
      exact hinner.perm ((sortRecords_perm _).map TransferRecord.uniqueId).symm
  · intro netKey dec sym w tok tsOf incoming outgoing e r hkf hin hout hf
    have hmem : e ∈ incoming ++ outgoing := List.mem_append_left _ hin
    have hsingle := filterMap_filter_key_single (dedupByKey (incoming ++ outgoing)) e r
      (dedupByKey_keys_nodup _) (dedupByKey_mem_of hkf hmem) hf
    unfold mergeNormalize mapAndSort
    have hperm := (sortRecords_perm
      ((dedupByKey (incoming ++ outgoing)).filterMap (mapEntry netKey dec sym w tok tsOf))).filter
      (fun r' => r'.uniqueId == netKey ++ "-" ++ logKey e)
    rw [hperm.length_eq, hsingle]
    rfl

/-- Witness for C1: the happy-path run has pairwise-distinct unique
identifiers, and an event present in both directional lists yields a
single matching record in the merged output. -/
theorem claim_C1_witness :
    ((getTransferRecords scEnv scLedger scParams).run 0 = (Except.ok [scRecord], 8) ∧
      ([scRecord].map TransferRecord.uniqueId).Nodup) ∧
    ((KeyFunctional ([scGoodLog] ++ [scGoodLog]) ∧ scGoodLog ∈ [scGoodLog] ∧
        mapEntry "mainnet" 0 "TOK" "0xW" "0xT" scTs100 scGoodLog = some scGoodRec) ∧
      ((mergeNormalize "mainnet" 0 "TOK" "0xW" "0xT" scTs100 [scGoodLog] [scGoodLog]).filter
        (fun r' => r'.uniqueId == "mainnet" ++ "-" ++ logKey scGoodLog)).length = 1) :=
  ⟨⟨by decide, claim_C1.1 scEnv scLedger scParams 0 8 [scRecord] (by decide)⟩,
   ⟨⟨by decide, by decide, by decide⟩,
    claim_C1.2 "mainnet" 0 "TOK" "0xW" "0xT" scTs100 [scGoodLog] [scGoodLog] scGoodLog scGoodRec
      (by decide) (by decide) (by decide) (by decide)⟩⟩

/-- Counterexample to C3 as stated: on a monotone ledger whose head
timestamp (100) predates the target (200), `findBlockAtOrAfter` still
returns a block — the head — whose timestamp is below the target (no
block qualifies), and the resolved range `(1, 1)` of a run with
`fromTimestamp = 200` is non-empty yet `timestampOf fromBlock = 100 <
200 = startOfFromDate`. -/
theorem claim_C3_counterexample :
    MonotoneTs scPastLedger ∧
    (findBlockAtOrAfter scPastLedger 200 scPastLedger.latestNumber).run 0 = (Except.ok 1, 1) ∧
    scPastLedger.timestampOf 0 < 200 ∧ scPastLedger.timestampOf 1 < 200 ∧
    (resolveBlockRange scPastLedger 200 300).run 0 = (Except.ok (1, 1), 2) ∧
    ((1 : Nat) : Int) ≤ (1 : Int) ∧ ¬(200 : Int) ≤ scPastLedger.timestampOf 1 :=
  ⟨fun i j h => le_refl 100, by decide, by decide, by decide, by decide, by decide, by decide⟩

/-- C3 (amended): on a monotone ledger, provided the head's timestamp
reaches the target, `findBlockAtOrAfter` returns the lowest block in
`[0, latestBlockNumber]` whose timestamp is at or past the target; and
provided the head's timestamp reaches the start-of-from-day instant, a
resolved non-empty block range brackets the window:
`blockTimestamp(fromBlock) ≥ startOfFromDate` and
`blockTimestamp(toBlock) ≤ endOfToDate`. -/
theorem claim_C3 :
    (∀ (L : Ledger) (target : Int) (latest n r n' : Nat),
      MonotoneTs L → target ≤ L.timestampOf latest →
      (findBlockAtOrAfter L target latest).run n = (Except.ok r, n') →
      r ≤ latest ∧ target ≤ L.timestampOf r ∧ ∀ b, b < r → L.timestampOf b < target) ∧
    (∀ (L : Ledger) (fromTs toTs : Int) (n n' : Nat) (fb : Nat) (tb : Int),
      MonotoneTs L → fromTs ≤ L.timestampOf L.latestNumber →
      (resolveBlockRange L fromTs toTs).run n = (Except.ok (fb, tb), n') →
      (fb : Int) ≤ tb →
      fromTs ≤ L.timestampOf fb ∧ 0 ≤ tb ∧ L.timestampOf tb.toNat ≤ toTs) := by
  constructor
  · intro L target latest n r n' mono hhead hrun
    exact findBlockAtOrAfter_spec mono hhead hrun
  · intro L fromTs toTs n n' fb tb mono hhead hrun hle
    unfold resolveBlockRange at hrun
    obtain ⟨latest, m1, h1, hrun⟩ := M.bind_ok hrun
    rw [fetchLatestBlock_run] at h1
    have hlat : latest = (L.latestNumber, L.timestampOf L.latestNumber) :=
      (Except.ok.inj (Prod.mk.injEq _ _ _ _ ▸ h1).1).symm
    subst hlat
    obtain ⟨fb', m2, h2, hrun⟩ := M.bind_ok hrun
    dsimp only at hrun
    have hfrom := findBlockAtOrAfter_spec mono hhead h2
    by_cases hc : toTs ≥ L.timestampOf L.latestNumber
    · rw [if_pos hc] at hrun
      simp only [M.run_bind, M.run_pure, Prod.mk.injEq, Except.ok.injEq] at hrun
      obtain ⟨⟨hfb, htb⟩, _⟩ := hrun
      subst hfb
      subst htb
      refine ⟨hfrom.2.1, by omega, by simpa using hc⟩
    · rw [if_neg hc] at hrun
      obtain ⟨b, m4, h4, hrun⟩ := M.bind_ok hrun
      simp only [M.run_bind, M.run_pure, Prod.mk.injEq, Except.ok.injEq] at hrun
      obtain ⟨⟨hfb, htb⟩, _⟩ := hrun
      subst hfb
      subst htb
      have hhead2 : toTs + 1 ≤ L.timestampOf L.latestNumber := by omega
      have hspec := findBlockAtOrAfter_spec mono hhead2 h4
      have hb1 : 1 ≤ b := by omega
      have htoNat : ((b : Int) - 1).toNat = b - 1 := by omega
      refine ⟨hfrom.2.1, by omega, ?_⟩
      rw [htoNat]
      have := hspec.2.2 (b - 1) (by omega)
      omega

/-- Witness for C3: on the strictly-increasing happy-path ledger the
search finds block 0 for the start-of-2024-01-01 target, and the
resolved range `(0, 3)` brackets the day. -/
theorem claim_C3_witness :
    (MonotoneTs scLedger ∧ (1704067200 : Int) ≤ scLedger.timestampOf 3 ∧
      (findBlockAtOrAfter scLedger 1704067200 3).run 0 = (Except.ok 0, 2) ∧
      (0 ≤ 3 ∧ (1704067200 : Int) ≤ scLedger.timestampOf 0 ∧
        ∀ b, b < 0 → scLedger.timestampOf b < 1704067200)) ∧
    ((resolveBlockRange scLedger 1704067200 1704153599).run 0 = (Except.ok (0, 3), 3) ∧
      ((0 : Nat) : Int) ≤ (3 : Int) ∧
      ((1704067200 : Int) ≤ scLedger.timestampOf 0 ∧ 0 ≤ (3 : Int) ∧
        scLedger.timestampOf (3 : Int).toNat ≤ 1704153599)) := by
  have hmono : MonotoneTs scLedger := by
    intro i j hij
    show (1704067200 : Int) + i * 10 ≤ 1704067200 + j * 10
    omega
  refine ⟨⟨hmono, by decide, by decide,
    claim_C3.1 scLedger 1704067200 3 0 0 2 hmono (by decide) (by decide)⟩,
    ⟨by decide, by decide,
    claim_C3.2 scLedger 1704067200 1704153599 0 3 0 3 hmono (by decide) (by decide) (by decide)⟩⟩

/-- Counterexample to C5 as stated: the program computes the amount as
`Number(formatUnits(value, decimals))` (`erc20.ts:452`), i.e. the
binary64 double nearest to the exact quotient.  For raw amount
`10 ^ 18 + 1` at `decimals = 18` that double is exactly `1`, while the
claimed value `(10 ^ 18 + 1) · 10 ^ -18` is not `1` — so "in general
the decimal amount equals the raw unscaled amount scaled by
`10 ^ -decimals`" is false of the program. -/
theorem claim_C5_counterexample :
    jsFormatUnits (10 ^ 18 + 1) 18 = 1 ∧
    ¬jsFormatUnits (10 ^ 18 + 1) 18 = ((10 ^ 18 + 1 : Nat) : ℚ) / (10 : ℚ) ^ (18 : Nat) := by
  refine ⟨by decide, ?_⟩
  rw [← formatUnitsQ_eq]
  decide

/-- C5 (amended): the decimal amount is the IEEE-754 binary64 double
nearest to the raw amount scaled by `10 ^ decimals` — equal to the
exact quotient only when that quotient is representable — signed
positive when the wallet is the receiving address and negative when it
is the sending address.  With `decimals = 6` and raw amount `1000000`
the quotient `1` is exactly representable, so the receiver record has
amount `1` and the sender record for the identical raw event has
amount `-1`. -/
theorem claim_C5 :
    (∀ (netKey : String) (dec : Nat) (sym w tok : String) (tsOf : Nat → Option Int)
      (e : TransferLog) (r : TransferRecord) (v : Nat) (tA : String),
      mapEntry netKey dec sym w tok tsOf e = some r →
      e.argsValue = some v → e.argsTo = some tA →
      ((strToLower tA = strToLower w → r.amount = formatUnitsQ v dec) ∧
       (¬strToLower tA = strToLower w → r.amount = -(formatUnitsQ v dec)) ∧
       (0 < v → strToLower tA = strToLower w → 0 < r.amount) ∧
       (0 < v → ¬strToLower tA = strToLower w → r.amount < 0))) ∧
    (∀ v dec : Nat, 0 ≤ jsFormatUnits v dec) ∧
    (jsFormatUnits 1000000 6 = formatUnitsQ 1000000 6 ∧
      formatUnitsQ 1000000 6 = (1000000 : ℚ) / (10 : ℚ) ^ (6 : Nat) ∧
      jsFormatUnits 1000000 6 = 1 ∧ -(jsFormatUnits 1000000 6) = -1) ∧
    (mapEntry "mainnet" 6 "USDC" "0xW" "0xT" scTs100 scRecvLog = some c5RecvRec ∧
      c5RecvRec.amount = 1 ∧
      mapEntry "mainnet" 6 "USDC" "0xW" "0xT" scTs100 scSendLog = some c5SendRec ∧
      c5SendRec.amount = -1) := by
  refine ⟨?_, ?_, ?_, ?_⟩
  · intro netKey dec sym w tok tsOf e r v tA hmap hv hto
    obtain ⟨ts, i, hsh, fA, tA', v', h1, h2, h3, h4, h5, h6, hfa, hta, hr⟩ :=
      mapEntry_some_inv hmap
    rw [h5] at hto
    rw [h6] at hv
    obtain rfl : tA' = tA := Option.some.inj hto
    obtain rfl : v' = v := Option.some.inj hv
    subst hr
    have hpos : 0 < v' → 0 < formatUnitsQ v' dec := fun hv0 => by
      rw [formatUnitsQ_eq]
      exact div_pos (by exact_mod_cast hv0) (pow_pos (by norm_num) dec)
    refine ⟨?_, ?_, ?_, ?_⟩
    · intro hcond
      show (if strToLower tA' = strToLower w then formatUnitsQ v' dec
        else -(formatUnitsQ v' dec)) = formatUnitsQ v' dec
      rw [if_pos hcond]
    · intro hcond
      show (if strToLower tA' = strToLower w then formatUnitsQ v' dec
        else -(formatUnitsQ v' dec)) = -(formatUnitsQ v' dec)
      rw [if_neg hcond]
    · intro hv0 hcond
      show 0 < (if strToLower tA' = strToLower w then formatUnitsQ v' dec
        else -(formatUnitsQ v' dec))
      rw [if_pos hcond]
      exact hpos hv0
    · intro hv0 hcond
      show (if strToLower tA' = strToLower w then formatUnitsQ v' dec
        else -(formatUnitsQ v' dec)) < 0
      rw [if_neg hcond]
      exact neg_neg_of_pos (hpos hv0)
  · intro v dec
    unfold jsFormatUnits nearestDouble
    dsimp only
    split_ifs
    all_goals first
      | exact le_refl 0
      | positivity
      | (rw [Rat.mkRat_eq_div]; positivity)
  · refine ⟨by decide, ?_, by decide, by decide⟩
    rw [formatUnitsQ_eq]
    norm_num
  · exact ⟨by decide, rfl, by decide, rfl⟩

/-- Witness for C5: the receiver-side mapping of the decimals-6 example
satisfies the general sign-and-scale law. -/
theorem claim_C5_witness :
    (mapEntry "mainnet" 6 "USDC" "0xW" "0xT" scTs100 scRecvLog = some c5RecvRec ∧
      scRecvLog.argsValue = some 1000000 ∧ scRecvLog.argsTo = some "0xW" ∧
      strToLower "0xW" = strToLower "0xW") ∧
    c5RecvRec.amount = formatUnitsQ 1000000 6 :=
  ⟨⟨by decide, by decide, by decide, rfl⟩,
   (claim_C5.1 "mainnet" 6 "USDC" "0xW" "0xT" scTs100 scRecvLog c5RecvRec 1000000 "0xW"
      (by decide) (by decide) (by decide)).1 rfl⟩

/-- Counterexample to C6 as stated: two distinct events whose resolved
timestamps and log indices tie (blocks 1 and 2 share a timestamp, both
logs have index 0).  Swapping their retrieval order permutes the input
multiset but changes the merged, sorted output, because the stable sort
preserves the arrival order of comparator ties. -/
theorem claim_C6_counterexample :
    ([scTieLogA, scTieLogB] ++ ([] : List TransferLog)).Perm
      ([scTieLogB, scTieLogA] ++ ([] : List TransferLog)) ∧
    mergeNormalize "mainnet" 0 "TOK" "0xW" "0xT" scTieTs [scTieLogA, scTieLogB] [] ≠
      mergeNormalize "mainnet" 0 "TOK" "0xW" "0xT" scTieTs [scTieLogB, scTieLogA] [] := by
  constructor
  · exact List.Perm.swap _ _ _
  · decide

/-- C6 (amended): the merged output is invariant under the retrieval
order provided events are determined by their dedup key and the
resolved `(timestamp, logIndex)` pairs of distinct events are distinct
(no comparator ties between different events). -/
theorem claim_C6 (netKey : String) (dec : Nat) (sym w tok : String)
    (tsOf : Nat → Option Int) (incoming₁ outgoing₁ incoming₂ outgoing₂ : List TransferLog)
    (hp : (incoming₁ ++ outgoing₁).Perm (incoming₂ ++ outgoing₂))
    (hkf : KeyFunctional (incoming₁ ++ outgoing₁))
    (hdist : ∀ x, x ∈ incoming₁ ++ outgoing₁ → ∀ y, y ∈ incoming₁ ++ outgoing₁ → x ≠ y →
      ¬(tsOf x.blockNumber = tsOf y.blockNumber ∧ x.logIndex = y.logIndex)) :
    mergeNormalize netKey dec sym w tok tsOf incoming₁ outgoing₁ =
      mergeNormalize netKey dec sym w tok tsOf incoming₂ outgoing₂ := by
  unfold mergeNormalize
  exact mergeNormalize_perm_invariant hp hkf hdist

/-- Witness for C6: one event retrieved as incoming in the first order
and as outgoing in the second produces the same output. -/
theorem claim_C6_witness :
    (([scGoodLog] ++ ([] : List TransferLog)).Perm (([] : List TransferLog) ++ [scGoodLog]) ∧
      KeyFunctional ([scGoodLog] ++ [])) ∧
    mergeNormalize "mainnet" 0 "TOK" "0xW" "0xT" scTs100 [scGoodLog] [] =
      mergeNormalize "mainnet" 0 "TOK" "0xW" "0xT" scTs100 [] [scGoodLog] :=
  ⟨⟨by decide, by decide⟩,
   claim_C6 "mainnet" 0 "TOK" "0xW" "0xT" scTs100 [scGoodLog] [] [] [scGoodLog]
     (by decide) (by decide)
     (by
       intro x hx y hy hne
       exfalso
       simp only [List.append_nil, List.mem_singleton] at hx hy
       rw [hx, hy] at hne
       exact hne rfl)⟩

/-- C7 (confirmed): the retry/timeout wrapper gives every attempt the
30-second deadline (an attempt exceeding it becomes the timeout
`ChainError` with the operation's message), consults at most the first
`1 + RPC_RETRY_TIMES = 3` attempts, sleeps the exponential backoff
delays `200·2^k` milliseconds (at most two of them, so the slept delays
are always a prefix of `[200, 400]`), and after the final failure
surfaces the last attempt's `ChainError`. -/
theorem claim_C7 :
    (RPC_REQUEST_TIMEOUT_MS = 30000 ∧ RPC_RETRY_DELAY_MS = 200 ∧ RPC_RETRY_TIMES = 2) ∧
    (∀ (α : Type) (tm : String) (att : Nat → Attempt α) (k : Nat),
      RPC_REQUEST_TIMEOUT_MS < (att k).durationMs →
      attemptResult tm att k = Except.error ⟨tm⟩) ∧
    (∀ (α : Type) (tm : String) (att att' : Nat → Attempt α),
      (∀ k, k ≤ RPC_RETRY_TIMES → att k = att' k) →
      withRpcTimeoutAndRetry tm att = withRpcTimeoutAndRetry tm att') ∧
    (∀ (α : Type) (tm : String) (att : Nat → Attempt α),
      (withRpcTimeoutAndRetry tm att).2.IsPrefix
        [RPC_RETRY_DELAY_MS, RPC_RETRY_DELAY_MS * 2]) ∧
    (∀ (α : Type) (tm : String) (att : Nat → Attempt α),
      (∀ k, k ≤ RPC_RETRY_TIMES → ∃ e, attemptResult tm att k = Except.error e) →
      (withRpcTimeoutAndRetry tm att).1 = attemptResult tm att RPC_RETRY_TIMES) := by
  refine ⟨⟨rfl, rfl, rfl⟩, ?_, ?_, ?_, ?_⟩
  · intro α tm att k h
    unfold attemptResult
    rw [if_pos h]
  · intro α tm att att' h
    have e0 : att 0 = att' 0 := h 0 (by decide)
    have e1 : att 1 = att' 1 := h 1 (by decide)
    have e2 : att 2 = att' 2 := h 2 (by decide)
    simp only [withRpcTimeoutAndRetry, RPC_RETRY_TIMES, retryLoop, attemptResult, e0, e1, e2]
  · intro α tm att
    unfold withRpcTimeoutAndRetry RPC_RETRY_TIMES
    rcases h0 : attemptResult tm att 0 with e0 | a0
    · rcases h1 : attemptResult tm att 1 with e1 | a1
      · rcases h2 : attemptResult tm att 2 with e2 | a2
        · exact ⟨[], by simp [retryLoop, h0, h1, h2, RPC_RETRY_DELAY_MS]⟩
        · exact ⟨[], by simp [retryLoop, h0, h1, h2, RPC_RETRY_DELAY_MS]⟩
      · exact ⟨[RPC_RETRY_DELAY_MS * 2], by simp [retryLoop, h0, h1, RPC_RETRY_DELAY_MS]⟩
    · exact ⟨[RPC_RETRY_DELAY_MS, RPC_RETRY_DELAY_MS * 2], by simp [retryLoop, h0]⟩
  · intro α tm att hall
    obtain ⟨e0, h0⟩ := hall 0 (by decide)
    obtain ⟨e1, h1⟩ := hall 1 (by decide)
    obtain ⟨e2, h2⟩ := hall 2 (by decide)
    unfold withRpcTimeoutAndRetry RPC_RETRY_TIMES
    simp [retryLoop, h0, h1, h2]

/-- Witness for C7: with every attempt lasting 40 seconds each attempt
times out, and the wrapper surfaces the timeout error of the final
attempt after three attempts. -/
theorem claim_C7_witness :
    (RPC_REQUEST_TIMEOUT_MS < (scTimeoutAttempt 0).durationMs ∧
      attemptResult "Timed out loading latest block from RPC" scTimeoutAttempt 0 =
        Except.error ⟨"Timed out loading latest block from RPC"⟩) ∧
    ((∀ k, k ≤ RPC_RETRY_TIMES → ∃ e,
        attemptResult "Timed out loading latest block from RPC" scTimeoutAttempt k =
          Except.error e) ∧
      (withRpcTimeoutAndRetry "Timed out loading latest block from RPC" scTimeoutAttempt).1 =
        attemptResult "Timed out loading latest block from RPC" scTimeoutAttempt
          RPC_RETRY_TIMES) :=
  ⟨⟨by decide,
    claim_C7.2.1 Nat "Timed out loading latest block from RPC" scTimeoutAttempt 0 (by decide)⟩,
   ⟨fun k _ => ⟨⟨"Timed out loading latest block from RPC"⟩, by
      unfold attemptResult scTimeoutAttempt
      rw [if_pos (by decide)]⟩,
    claim_C7.2.2.2.2 Nat "Timed out loading latest block from RPC" scTimeoutAttempt
      (fun k _ => ⟨⟨"Timed out loading latest block from RPC"⟩, by
        unfold attemptResult scTimeoutAttempt
        rw [if_pos (by decide)]⟩)⟩⟩

theorem filterMap_erase_of_none {f : TransferLog → Option TransferRecord} {e : TransferLog}
    (hfe : f e = none) : ∀ l : List TransferLog, (l.erase e).filterMap f = l.filterMap f := by
  intro l
  induction l with
  | nil => rfl
  | cons x rest ih =>
    by_cases hx : x = e
    · subst hx
      rw [List.erase_cons_head, List.filterMap_cons_none hfe]
    · rw [List.erase_cons_tail (by simpa using hx)]
      rw [List.filterMap_cons, List.filterMap_cons]
      cases hfx : f x <;> simp [hfx, ih]

/-- C8 (confirmed): an event missing a required structural field maps
to no record; removing such an event from the batch leaves the final
output unchanged (it is dropped while everything else is processed);
every well-formed, timestamp-resolved event of the batch still yields
its record in the output; and the resolution as a whole succeeds
regardless of the ledger's content once the inputs validate. -/
theorem claim_C8 :
    (∀ (netKey : String) (dec : Nat) (sym w tok : String) (tsOf : Nat → Option Int)
      (e : TransferLog), MissingStructuralField e →
      mapEntry netKey dec sym w tok tsOf e = none) ∧
    (∀ (netKey : String) (dec : Nat) (sym w tok : String) (tsOf : Nat → Option Int)
      (l : List TransferLog) (e : TransferLog), MissingStructuralField e →
      mapAndSort netKey dec sym w tok tsOf l =
        mapAndSort netKey dec sym w tok tsOf (l.erase e)) ∧
    (∀ (netKey : String) (dec : Nat) (sym w tok : String) (tsOf : Nat → Option Int)
      (l : List TransferLog) (e' : TransferLog) (r' : TransferRecord),
      e' ∈ l → mapEntry netKey dec sym w tok tsOf e' = some r' →
      r' ∈ mapAndSort netKey dec sym w tok tsOf l) ∧
    (∀ (env : ChainsEnv) (L : Ledger) (p : Params) (ft tt : Int) (n : Nat),
      parseUtcDate p.fromDate false = some ft → parseUtcDate p.toDate true = some tt →
      ¬ft > tt → env.hasKey (normalizeNetworkKey (strTrim p.network)) = true →
      p.rpcProvider = RpcProvider.publicRpc →
      ∃ records n', (getTransferRecords env L p).run n = (Except.ok records, n')) := by
  refine ⟨?_, ?_, ?_, ?_⟩
  · intro netKey dec sym w tok tsOf e hmiss
    exact mapEntry_none_of_missing hmiss
  · intro netKey dec sym w tok tsOf l e hmiss
    unfold mapAndSort
    rw [filterMap_erase_of_none (mapEntry_none_of_missing hmiss) l]
  · intro netKey dec sym w tok tsOf l e' r' he hf
    unfold mapAndSort
    exact (sortRecords_perm _).mem_iff.mpr (List.mem_filterMap.mpr ⟨e', he, hf⟩)
  · intro env L p ft tt n hft htt hord hk hrp
    exact getTransferRecords_ok_of_valid n hft htt hord hk hrp

/-- Witness for C8: a log with a missing transaction hash is dropped
while the well-formed log of the same batch is still returned, and the
pipeline succeeds on a ledger containing the malformed log. -/
theorem claim_C8_witness :
    (MissingStructuralField scBadLog ∧
      mapEntry "mainnet" 0 "TOK" "0xW" "0xT" scTs100 scBadLog = none) ∧
    (mapAndSort "mainnet" 0 "TOK" "0xW" "0xT" scTs100 [scGoodLog, scBadLog] =
      mapAndSort "mainnet" 0 "TOK" "0xW" "0xT" scTs100 ([scGoodLog, scBadLog].erase scBadLog)) ∧
    (scGoodLog ∈ [scGoodLog, scBadLog] ∧
      scGoodRec ∈ mapAndSort "mainnet" 0 "TOK" "0xW" "0xT" scTs100 [scGoodLog, scBadLog]) ∧
    ∃ records n',
      (getTransferRecords scEnv
        { scLedger with logs := scLedger.logs ++ [scBadLog] } scParams).run 0 =
      (Except.ok records, n') :=
  ⟨⟨by decide, claim_C8.1 "mainnet" 0 "TOK" "0xW" "0xT" scTs100 scBadLog (by decide)⟩,
   claim_C8.2.1 "mainnet" 0 "TOK" "0xW" "0xT" scTs100 [scGoodLog, scBadLog] scBadLog (by decide),
   ⟨by decide,
    claim_C8.2.2.1 "mainnet" 0 "TOK" "0xW" "0xT" scTs100 [scGoodLog, scBadLog] scGoodLog scGoodRec
      (by decide) (by decide)⟩,
   claim_C8.2.2.2 scEnv { scLedger with logs := scLedger.logs ++ [scBadLog] } scParams
     1704067200 1704153599 0 (by decide) (by decide) (by decide) (by decide) rfl⟩

theorem getTransferRecords_record_fields {env : ChainsEnv} {L : Ledger} {p : Params}
    {n n' : Nat} {records : List TransferRecord} {r : TransferRecord}
    (h : (getTransferRecords env L p).run n = (Except.ok records, n')) (hr : r ∈ records) :
    r.network = normalizeNetworkKey (strTrim p.network) ∧
      ∃ rest, r.uniqueId = r.network ++ "-" ++ rest := by
  rcases getTransferRecords_ok_inv h with hnil | ⟨tsOf, incoming, outgoing, hrec⟩
  · subst hnil
    exact absurd hr (List.not_mem_nil r)
  · subst hrec
    unfold mapAndSort at hr
    have hmem := (sortRecords_perm _).mem_iff.mp hr
    rcases List.mem_filterMap.mp hmem with ⟨e, he, hfe⟩
    have hfields := mapEntry_uniqueId_network hfe
    refine ⟨hfields.2, logKey e, ?_⟩
    rw [hfields.2, hfields.1]

/-- C9 (confirmed): the `network` field of every output record is the
normalized chain key — the caller's input trimmed and alias-mapped
(with `"ethereum"` mapping to `"mainnet"`) — the `uniqueId` begins with
that key, and all records of one invocation carry the same key. -/
theorem claim_C9 :
    (∀ (env : ChainsEnv) (L : Ledger) (p : Params) (n n' : Nat)
      (records : List TransferRecord) (r : TransferRecord),
      (getTransferRecords env L p).run n = (Except.ok records, n') → r ∈ records →
      r.network = normalizeNetworkKey (strTrim p.network) ∧
        ∃ rest, r.uniqueId = r.network ++ "-" ++ rest) ∧
    (∀ (env : ChainsEnv) (L : Ledger) (p : Params) (n n' : Nat)
      (records : List TransferRecord) (r r' : TransferRecord),
      (getTransferRecords env L p).run n = (Except.ok records, n') →
      r ∈ records → r' ∈ records → r.network = r'.network) ∧
    normalizeNetworkKey "ethereum" = "mainnet" := by
  refine ⟨?_, ?_, rfl⟩
  · intro env L p n n' records r h hr
    exact getTransferRecords_record_fields h hr
  · intro env L p n n' records r r' h hr hr'
    rw [(getTransferRecords_record_fields h hr).1, (getTransferRecords_record_fields h hr').1]

/-- Witness for C9: the happy-path run was invoked with the alias
`"ethereum"` and its record carries the resolved key `"mainnet"` as
its network and as the first `uniqueId` component. -/
theorem claim_C9_witness :
    ((getTransferRecords scEnv scLedger scParams).run 0 = (Except.ok [scRecord], 8) ∧
      scRecord ∈ [scRecord]) ∧
    (scRecord.network = normalizeNetworkKey (strTrim scParams.network) ∧
      ∃ rest, scRecord.uniqueId = scRecord.network ++ "-" ++ rest) :=
  ⟨⟨by decide, by decide⟩,
   claim_C9.1 scEnv scLedger scParams 0 8 [scRecord] scRecord (by decide) (by decide)⟩

/-- C10 (confirmed): for a self-transfer — both addresses equal to the
queried wallet up to case — the merged output contains exactly one
record for the event and its amount is positive: the receiver branch of
the sign rule wins. -/
theorem claim_C10 (netKey : String) (dec : Nat) (sym w tok : String) (tsOf : Nat → Option Int)
    (incoming outgoing : List TransferLog) (e : TransferLog) (r : TransferRecord)
    (fA tA : String) (v : Nat)
    (hkf : KeyFunctional (incoming ++ outgoing)) (hin : e ∈ incoming) (hout : e ∈ outgoing)
    (hmap : mapEntry netKey dec sym w tok tsOf e = some r)
    (hfrom : e.argsFrom = some fA) (hfl : strToLower fA = strToLower w)
    (hto : e.argsTo = some tA) (htl : strToLower tA = strToLower w)
    (hv : e.argsValue = some v) (hv0 : 0 < v) :
    ((mergeNormalize netKey dec sym w tok tsOf incoming outgoing).filter
      (fun r' => r'.uniqueId == netKey ++ "-" ++ logKey e) = [r]) ∧ 0 < r.amount := by
  constructor
  · have hsingle := filterMap_filter_key_single (dedupByKey (incoming ++ outgoing)) e r
      (dedupByKey_keys_nodup _) (dedupByKey_mem_of hkf (List.mem_append_left _ hin)) hmap
    unfold mergeNormalize mapAndSort
    have hperm := (sortRecords_perm
      ((dedupByKey (incoming ++ outgoing)).filterMap (mapEntry netKey dec sym w tok tsOf))).filter
      (fun r' => r'.uniqueId == netKey ++ "-" ++ logKey e)
    rw [hsingle] at hperm
    exact List.perm_singleton.mp hperm
  · obtain ⟨ts, i, hsh, fA', tA', v', h1, h2, h3, h4, h5, h6, hfa, hta, hr⟩ :=
      mapEntry_some_inv hmap
    rw [h5] at hto
    rw [h6] at hv
    obtain rfl : tA' = tA := Option.some.inj hto
    obtain rfl : v' = v := Option.some.inj hv
    subst hr
    show 0 < (if strToLower tA' = strToLower w then formatUnitsQ v' dec
      else -(formatUnitsQ v' dec))
    rw [if_pos htl, formatUnitsQ_eq]
    exact div_pos (by exact_mod_cast hv0) (pow_pos (by norm_num) dec)

/-- Witness for C10: the self-transfer event (from `"0xW"` to `"0xw"`,
wallet `"0xW"`) retrieved by both directions yields one record with the
positive amount 3. -/
theorem claim_C10_witness :
    (KeyFunctional ([scSelfLog] ++ [scSelfLog]) ∧
      mapEntry "mainnet" 0 "TOK" "0xW" "0xT" scTs100 scSelfLog = some scSelfRec ∧
      strToLower "0xw" = strToLower "0xW") ∧
    (((mergeNormalize "mainnet" 0 "TOK" "0xW" "0xT" scTs100 [scSelfLog] [scSelfLog]).filter
      (fun r' => r'.uniqueId == "mainnet" ++ "-" ++ logKey scSelfLog) = [scSelfRec]) ∧
      0 < scSelfRec.amount) :=
  ⟨⟨by decide, by decide, by decide⟩,
   claim_C10 "mainnet" 0 "TOK" "0xW" "0xT" scTs100 [scSelfLog] [scSelfLog] scSelfLog scSelfRec
     "0xW" "0xw" 3 (by decide) (by decide) (by decide) (by decide) (by decide) (by decide)
     (by decide) (by decide) (by decide) (by decide)⟩
